import Mathlib

/-!
# Verification of the Triumvirate mesh-field and field-statistics core

Shallow embedding of `src/triumvirate/src/modules/field.cpp` (classes
`trv::MeshField` and `trv::FieldStats`), with machine doubles modelled as
real numbers, complex mesh buffers as functions from flattened grid
indices to `ℂ`, and fallible operations as `Except`-valued functions.
-/

open Finset

namespace Triumvirate

/-- Modelled from the spec: `trv::ParameterSet` is declared outside the
provided sources; per the spec (§3, §6) it carries three positive axis box
sizes, three positive integer grid resolutions, an assignment-kernel
selector and an interlacing flag. -/
structure ParameterSet where
  ngrid0 : ℕ
  ngrid1 : ℕ
  ngrid2 : ℕ
  boxsize0 : ℝ
  boxsize1 : ℝ
  boxsize2 : ℝ
  assignment : String
  interlace : String

/-- Modelled from the spec: total cell count = product of the three axis
resolutions (spec §3, `params.nmesh`; set outside the provided sources). -/
def nmesh (p : ParameterSet) : ℕ := p.ngrid0 * p.ngrid1 * p.ngrid2

/-- Modelled from the spec: total volume = product of the three axis box
sizes (spec §3, `params.volume`; set outside the provided sources). -/
noncomputable def volume (p : ParameterSet) : ℝ :=
  p.boxsize0 * p.boxsize1 * p.boxsize2

/-- Grid cell size per axis 0, `field.cpp:64` (`dr[0]`). -/
noncomputable def dr0 (p : ParameterSet) : ℝ := p.boxsize0 / p.ngrid0

/-- Grid cell size per axis 1, `field.cpp:65` (`dr[1]`). -/
noncomputable def dr1 (p : ParameterSet) : ℝ := p.boxsize1 / p.ngrid1

/-- Grid cell size per axis 2, `field.cpp:66` (`dr[2]`). -/
noncomputable def dr2 (p : ParameterSet) : ℝ := p.boxsize2 / p.ngrid2

/-- Fundamental wavenumber per axis 0, `field.cpp:69` (`dk[0]`). -/
noncomputable def dk0 (p : ParameterSet) : ℝ := 2 * Real.pi / p.boxsize0

/-- Fundamental wavenumber per axis 1, `field.cpp:70` (`dk[1]`). -/
noncomputable def dk1 (p : ParameterSet) : ℝ := 2 * Real.pi / p.boxsize1

/-- Fundamental wavenumber per axis 2, `field.cpp:71` (`dk[2]`). -/
noncomputable def dk2 (p : ParameterSet) : ℝ := 2 * Real.pi / p.boxsize2

/-- Per-cell volume, `field.cpp:75` (`vol_cell = vol / nmesh`). -/
noncomputable def vol_cell (p : ParameterSet) : ℝ := volume p / (nmesh p : ℝ)

/-- C++ `int(double)` conversion: truncation toward zero. -/
noncomputable def cppTrunc (x : ℝ) : ℤ := if 0 ≤ x then ⌊x⌋ else ⌈x⌉

/-- Row-major index flattening, `MeshField::get_grid_index`
(`field.cpp:117-121`): `(i * ngrid[1] + j) * ngrid[2] + k`. -/
def get_grid_index (p : ParameterSet) (i j k : ℤ) : ℤ :=
  (i * (p.ngrid1 : ℤ) + j) * (p.ngrid2 : ℤ) + k

/-- Real-space position vector of grid cell `(i,j,k)`,
`MeshField::get_grid_pos_vector` (`field.cpp:123-130`): wrap-around
convention, indices at or above half the axis resolution map to the
negative branch. -/
noncomputable def get_grid_pos_vector (p : ParameterSet) (i j k : ℕ) :
    ℝ × ℝ × ℝ :=
  ( if i < p.ngrid0 / 2 then (i : ℝ) * dr0 p
      else ((i : ℝ) - (p.ngrid0 : ℝ)) * dr0 p
  , if j < p.ngrid1 / 2 then (j : ℝ) * dr1 p
      else ((j : ℝ) - (p.ngrid1 : ℝ)) * dr1 p
  , if k < p.ngrid2 / 2 then (k : ℝ) * dr2 p
      else ((k : ℝ) - (p.ngrid2 : ℝ)) * dr2 p )

/-- Wavevector of grid cell `(i,j,k)`, `MeshField::get_grid_wavevector`
(`field.cpp:132-139`). -/
noncomputable def get_grid_wavevector (p : ParameterSet) (i j k : ℕ) :
    ℝ × ℝ × ℝ :=
  ( if i < p.ngrid0 / 2 then (i : ℝ) * dk0 p
      else ((i : ℝ) - (p.ngrid0 : ℝ)) * dk0 p
  , if j < p.ngrid1 / 2 then (j : ℝ) * dk1 p
      else ((j : ℝ) - (p.ngrid1 : ℝ)) * dk1 p
  , if k < p.ngrid2 / 2 then (k : ℝ) * dk2 p
      else ((k : ℝ) - (p.ngrid2 : ℝ)) * dk2 p )

/-- Modelled from the spec: `trv::maths::get_vec3d_magnitude` lives in the
maths module outside the provided sources; it is the Euclidean magnitude
of a 3-vector. -/
noncomputable def get_vec3d_magnitude (v : ℝ × ℝ × ℝ) : ℝ :=
  Real.sqrt (v.1 * v.1 + v.2.1 * v.2.1 + v.2.2 * v.2.2)

/-- The finite set of 3-D loop index triples `(i,j,k)`,
`0 ≤ i < ngrid[0]`, `0 ≤ j < ngrid[1]`, `0 ≤ k < ngrid[2]`, enumerated by
the triple loops throughout `field.cpp`. -/
def gridTriples (p : ParameterSet) : Finset (ℕ × ℕ × ℕ) :=
  Finset.range p.ngrid0 ×ˢ Finset.range p.ngrid1 ×ˢ Finset.range p.ngrid2

lemma cppTrunc_of_nonneg {x : ℝ} (h : 0 ≤ x) : cppTrunc x = ⌊x⌋ := by
  simp [cppTrunc, h]

lemma cppTrunc_eq_of {x : ℝ} {z : ℤ} (h0 : (0:ℝ) ≤ x) (h1 : (z : ℝ) ≤ x)
    (h2 : x < (z : ℝ) + 1) : cppTrunc x = z := by
  rw [cppTrunc_of_nonneg h0]
  exact Int.floor_eq_iff.mpr ⟨h1, h2⟩

lemma cppTrunc_intCast_add_half (g : ℤ) (hg : 0 ≤ g) :
    cppTrunc ((g : ℝ) + 1/2) = g := by
  refine cppTrunc_eq_of ?_ ?_ ?_
  · have : (0:ℝ) ≤ (g:ℝ) := by exact_mod_cast hg
    linarith
  · linarith
  · linarith

lemma mem_gridTriples {p : ParameterSet} {m : ℕ × ℕ × ℕ} :
    m ∈ gridTriples p ↔
      m.1 < p.ngrid0 ∧ m.2.1 < p.ngrid1 ∧ m.2.2 < p.ngrid2 := by
  simp [gridTriples, Finset.mem_product, Finset.mem_range, and_assoc]

lemma card_gridTriples (p : ParameterSet) :
    (gridTriples p).card = nmesh p := by
  simp [gridTriples, nmesh, mul_assoc]

/-- For in-range triples, the flattened index lies in `[0, nmesh)`. -/
lemma get_grid_index_bounds {p : ParameterSet} {i j k : ℤ}
    (hi : 0 ≤ i ∧ i < (p.ngrid0 : ℤ)) (hj : 0 ≤ j ∧ j < (p.ngrid1 : ℤ))
    (hk : 0 ≤ k ∧ k < (p.ngrid2 : ℤ)) :
    0 ≤ get_grid_index p i j k ∧ get_grid_index p i j k < (nmesh p : ℤ) := by
  obtain ⟨hi0, hi1⟩ := hi
  obtain ⟨hj0, hj1⟩ := hj
  obtain ⟨hk0, hk1⟩ := hk
  unfold get_grid_index nmesh
  constructor
  · have h1 : 0 ≤ i * (p.ngrid1 : ℤ) + j := by positivity
    have h2 : 0 ≤ (i * (p.ngrid1 : ℤ) + j) * (p.ngrid2 : ℤ) := by positivity
    linarith
  · push_cast
    have h1 : i * (p.ngrid1 : ℤ) + j ≤ (p.ngrid0 : ℤ) * p.ngrid1 - 1 := by
      nlinarith
    have h2 : ((i * (p.ngrid1 : ℤ) + j)) * (p.ngrid2 : ℤ)
        ≤ ((p.ngrid0 : ℤ) * p.ngrid1 - 1) * p.ngrid2 := by
      have hk2 : (0:ℤ) ≤ (p.ngrid2 : ℤ) := by positivity
      exact mul_le_mul_of_nonneg_right h1 hk2
    nlinarith

/-- Row-major flattening is injective on in-range triples. -/
lemma get_grid_index_inj {p : ParameterSet} {i j k i' j' k' : ℤ}
    (hi : 0 ≤ i ∧ i < (p.ngrid0 : ℤ)) (hj : 0 ≤ j ∧ j < (p.ngrid1 : ℤ))
    (hk : 0 ≤ k ∧ k < (p.ngrid2 : ℤ))
    (hi' : 0 ≤ i' ∧ i' < (p.ngrid0 : ℤ)) (hj' : 0 ≤ j' ∧ j' < (p.ngrid1 : ℤ))
    (hk' : 0 ≤ k' ∧ k' < (p.ngrid2 : ℤ))
    (h : get_grid_index p i j k = get_grid_index p i' j' k') :
    i = i' ∧ j = j' ∧ k = k' := by
  unfold get_grid_index at h
  have hk2 : k = k' ∧ i * (p.ngrid1 : ℤ) + j = i' * (p.ngrid1 : ℤ) + j' := by
    have hd : (i * (p.ngrid1 : ℤ) + j - (i' * (p.ngrid1 : ℤ) + j'))
        * (p.ngrid2 : ℤ) = k' - k := by ring_nf; linarith
    by_cases hz : i * (p.ngrid1 : ℤ) + j = i' * (p.ngrid1 : ℤ) + j'
    · constructor
      · rw [hz] at h; linarith
      · exact hz
    · exfalso
      have habs : 1 ≤ |i * (p.ngrid1 : ℤ) + j - (i' * (p.ngrid1 : ℤ) + j')| := by
        exact Int.one_le_abs (sub_ne_zero_of_ne hz)
      have h2 : (p.ngrid2 : ℤ) ≤ |k' - k| := by
        calc (p.ngrid2 : ℤ) = 1 * (p.ngrid2 : ℤ) := (one_mul _).symm
        _ ≤ |i * (p.ngrid1 : ℤ) + j - (i' * (p.ngrid1 : ℤ) + j')|
              * (p.ngrid2 : ℤ) := by
            apply mul_le_mul_of_nonneg_right habs; positivity
        _ = |(i * (p.ngrid1 : ℤ) + j - (i' * (p.ngrid1 : ℤ) + j'))
              * (p.ngrid2 : ℤ)| := by
            rw [abs_mul]
            congr 1
            exact (abs_of_nonneg (by positivity)).symm
        _ = |k' - k| := by rw [hd]
      have h3 : |k' - k| < (p.ngrid2 : ℤ) := by
        rw [abs_lt]; omega
      omega
  obtain ⟨hkk, hij⟩ := hk2
  have hj2 : j = j' ∧ i = i' := by
    have hd : (i - i') * (p.ngrid1 : ℤ) = j' - j := by ring_nf; linarith
    by_cases hz : i = i'
    · constructor
      · rw [hz] at hij; linarith
      · exact hz
    · exfalso
      have habs : 1 ≤ |i - i'| := by
        exact Int.one_le_abs (sub_ne_zero_of_ne hz)
      have h2 : (p.ngrid1 : ℤ) ≤ |j' - j| := by
        calc (p.ngrid1 : ℤ) = 1 * (p.ngrid1 : ℤ) := (one_mul _).symm
        _ ≤ |i - i'| * (p.ngrid1 : ℤ) := by
            apply mul_le_mul_of_nonneg_right habs; positivity
        _ = |(i - i') * (p.ngrid1 : ℤ)| := by
            rw [abs_mul]
            congr 1
            exact (abs_of_nonneg (by positivity)).symm
        _ = |j' - j| := by rw [hd]
      have h3 : |j' - j| < (p.ngrid1 : ℤ) := by
        rw [abs_lt]; omega
      omega
  exact ⟨hj2.2, hj2.1, hkk⟩

/-! ## Mesh assignment kernels (`field.cpp:146-565`) -/

/-- Per-axis NGP cell/weight pair, `field.cpp:208-216`: one cell at the
nearest integer `int(loc_grid + 0.5)` with unit window weight. -/
noncomputable def ngp_axis_cells (n : ℕ) (L x : ℝ) : List (ℤ × ℝ) :=
  let loc := x / L * (n : ℝ)
  [(cppTrunc (loc + 1/2), 1)]

/-- Per-axis CIC cells/weights, `field.cpp:293-305`: two cells
`int(loc), int(loc)+1` with linear weights `(1-s, s)`,
`s = loc - int(loc)`. -/
noncomputable def cic_axis_cells (n : ℕ) (L x : ℝ) : List (ℤ × ℝ) :=
  let loc := (n : ℝ) * x / L
  let s := loc - (cppTrunc loc : ℝ)
  [(cppTrunc loc, 1 - s), (cppTrunc loc + 1, s)]

/-- Per-axis TSC cells/weights, `field.cpp:386-400`: three cells centred
at `int(loc+0.5)` with quadratic B-spline weights. -/
noncomputable def tsc_axis_cells (n : ℕ) (L x : ℝ) : List (ℤ × ℝ) :=
  let loc := (n : ℝ) * x / L
  let s := loc - (cppTrunc (loc + 1/2) : ℝ)
  [ (cppTrunc (loc + 1/2) - 1, 1/2 * (1/2 - s) * (1/2 - s))
  , (cppTrunc (loc + 1/2), 3/4 - s * s)
  , (cppTrunc (loc + 1/2) + 1, 1/2 * (1/2 + s) * (1/2 + s)) ]

/-- Per-axis PCS cells/weights, `field.cpp:483-501`: four cells
`int(loc)-1 .. int(loc)+2` with cubic B-spline weights. -/
noncomputable def pcs_axis_cells (n : ℕ) (L x : ℝ) : List (ℤ × ℝ) :=
  let loc := (n : ℝ) * x / L
  let s := loc - (cppTrunc loc : ℝ)
  [ (cppTrunc loc - 1, 1/6 * (1 - s) * (1 - s) * (1 - s))
  , (cppTrunc loc, 1/6 * (4 - 6 * s * s + 3 * s * s * s))
  , (cppTrunc loc + 1,
      1/6 * (4 - 6 * (1 - s) * (1 - s) + 3 * (1 - s) * (1 - s) * (1 - s)))
  , (cppTrunc loc + 2, 1/6 * s * s * s) ]

/-- The triple loop over `iloc, jloc, kloc` (`field.cpp:218-232` and
analogues): every combination of per-axis cells, each carrying the product
of the per-axis window weights. -/
def mesh_contribs (cellsX cellsY cellsZ : List (ℤ × ℝ)) :
    List ((ℤ × ℤ × ℤ) × ℝ) :=
  cellsX.flatMap fun a => cellsY.flatMap fun b => cellsZ.map fun c =>
    ((a.1, b.1, c.1), a.2 * b.2 * c.2)

/-- One accumulation step of the assignment loops (`field.cpp:221-229` and
analogues): add `inv_vol_cell * weight * win` at the flattened index if it
lies in `[0, nmesh)`, else do nothing. -/
noncomputable def deposit_contrib (p : ParameterSet) (w : ℂ) (f : ℤ → ℂ)
    (c : (ℤ × ℤ × ℤ) × ℝ) : ℤ → ℂ :=
  let idx := get_grid_index p c.1.1 c.1.2.1 c.1.2.2
  if 0 ≤ idx ∧ idx < (nmesh p : ℤ) then
    Function.update f idx (f idx + ((1 / vol_cell p * c.2 : ℝ) : ℂ) * w)
  else f

/-- The main-buffer particle loop common to the four assignment routines:
reset the field to zero, then for each particle deposit all its cell
contributions. -/
noncomputable def assign_with_kernel
    (axis_cells : ℕ → ℝ → ℝ → List (ℤ × ℝ))
    (p : ParameterSet) (parts : List ((ℝ × ℝ × ℝ) × ℂ)) : ℤ → ℂ :=
  parts.foldl
    (fun f pw =>
      (mesh_contribs (axis_cells p.ngrid0 p.boxsize0 pw.1.1)
          (axis_cells p.ngrid1 p.boxsize1 pw.1.2.1)
          (axis_cells p.ngrid2 p.boxsize2 pw.1.2.2)).foldl
        (deposit_contrib p pw.2) f)
    (fun _ => 0)

/-- `MeshField::assign_weighted_field_to_mesh_ngp` (`field.cpp:187-270`),
main buffer (the interlacing pass writes only the shadow buffer). -/
noncomputable def assign_weighted_field_to_mesh_ngp (p : ParameterSet)
    (parts : List ((ℝ × ℝ × ℝ) × ℂ)) : ℤ → ℂ :=
  assign_with_kernel ngp_axis_cells p parts

/-- `MeshField::assign_weighted_field_to_mesh_cic` (`field.cpp:272-363`),
main buffer. -/
noncomputable def assign_weighted_field_to_mesh_cic (p : ParameterSet)
    (parts : List ((ℝ × ℝ × ℝ) × ℂ)) : ℤ → ℂ :=
  assign_with_kernel cic_axis_cells p parts

/-- `MeshField::assign_weighted_field_to_mesh_tsc` (`field.cpp:365-460`),
main buffer. -/
noncomputable def assign_weighted_field_to_mesh_tsc (p : ParameterSet)
    (parts : List ((ℝ × ℝ × ℝ) × ℂ)) : ℤ → ℂ :=
  assign_with_kernel tsc_axis_cells p parts

/-- `MeshField::assign_weighted_field_to_mesh_pcs` (`field.cpp:462-565`),
main buffer. -/
noncomputable def assign_weighted_field_to_mesh_pcs (p : ParameterSet)
    (parts : List ((ℝ × ℝ × ℝ) × ℂ)) : ℤ → ℂ :=
  assign_with_kernel pcs_axis_cells p parts

/-- `MeshField::assign_weighted_field_to_mesh` (`field.cpp:146-185`):
dispatch on the assignment-kernel selector; an unsupported selector throws
`InvalidParameter`. -/
noncomputable def assign_weighted_field_to_mesh (p : ParameterSet)
    (parts : List ((ℝ × ℝ × ℝ) × ℂ)) : Except String (ℤ → ℂ) :=
  if p.assignment = "ngp" then
    Except.ok (assign_weighted_field_to_mesh_ngp p parts)
  else if p.assignment = "cic" then
    Except.ok (assign_weighted_field_to_mesh_cic p parts)
  else if p.assignment = "tsc" then
    Except.ok (assign_weighted_field_to_mesh_tsc p parts)
  else if p.assignment = "pcs" then
    Except.ok (assign_weighted_field_to_mesh_pcs p parts)
  else Except.error "Unsupported mesh assignment scheme."

/-- Modelled from the spec: accumulation step that drops a contribution
whenever the target cell is out of range on ANY axis ("Contributions
outside grid bounds are silently dropped", read per axis).  For refinement
comparison against `deposit_contrib`. -/
noncomputable def deposit_contrib_axis_bounded (p : ParameterSet) (w : ℂ)
    (f : ℤ → ℂ) (c : (ℤ × ℤ × ℤ) × ℝ) : ℤ → ℂ :=
  let idx := get_grid_index p c.1.1 c.1.2.1 c.1.2.2
  if (0 ≤ c.1.1 ∧ c.1.1 < (p.ngrid0 : ℤ)) ∧ (0 ≤ c.1.2.1 ∧ c.1.2.1 < (p.ngrid1 : ℤ))
      ∧ (0 ≤ c.1.2.2 ∧ c.1.2.2 < (p.ngrid2 : ℤ)) then
    Function.update f idx (f idx + ((1 / vol_cell p * c.2 : ℝ) : ℂ) * w)
  else f

/-- Modelled from the spec: the CIC assignment with per-axis bounds
dropping, for refinement comparison. -/
noncomputable def assign_cic_axis_bounded (p : ParameterSet)
    (parts : List ((ℝ × ℝ × ℝ) × ℂ)) : ℤ → ℂ :=
  parts.foldl
    (fun f pw =>
      (mesh_contribs (cic_axis_cells p.ngrid0 p.boxsize0 pw.1.1)
          (cic_axis_cells p.ngrid1 p.boxsize1 pw.1.2.1)
          (cic_axis_cells p.ngrid2 p.boxsize2 pw.1.2.2)).foldl
        (deposit_contrib_axis_bounded p pw.2) f)
    (fun _ => 0)

/-! ## Density and fluctuation fields (`field.cpp:611-637`) -/

/-- `MeshField::compute_unweighted_field` (`field.cpp:611-623`): assign
all particles with unit weight `(1, 0)`. -/
noncomputable def compute_unweighted_field (p : ParameterSet)
    (pos : List (ℝ × ℝ × ℝ)) : Except String (ℤ → ℂ) :=
  assign_weighted_field_to_mesh p (pos.map fun x => (x, 1))

/-- `MeshField::compute_unweighted_field_fluctuations_insitu`
(`field.cpp:625-637`): after the unweighted assignment, subtract the mean
density `nbar = ntotal / vol` from the REAL component only of every cell
in `[0, nmesh)` (the imaginary subtraction is commented out in source). -/
noncomputable def compute_unweighted_field_fluctuations_insitu
    (p : ParameterSet) (pos : List (ℝ × ℝ × ℝ)) : Except String (ℤ → ℂ) :=
  (compute_unweighted_field p pos).map fun f gid =>
    if 0 ≤ gid ∧ gid < (nmesh p : ℤ) then
      ⟨(f gid).re - (pos.length : ℝ) / volume p, (f gid).im⟩
    else f gid

/-! ## Assignment window and shot-noise aliasing
(`field.cpp:567-604`, `field.cpp:1807-1876`) -/

/-- The kernel order selected in
`MeshField::calc_assignment_window_in_fourier` (`field.cpp:568-580`).
For an unrecognised selector the C++ variable `order` is left
uninitialised (undefined behaviour); `0` here is a junk placeholder for
that unreachable-under-valid-configuration case. -/
def assignment_order (p : ParameterSet) : ℕ :=
  if p.assignment = "ngp" then 1
  else if p.assignment = "cic" then 2
  else if p.assignment = "tsc" then 3
  else if p.assignment = "pcs" then 4
  else 0

/-- `MeshField::calc_assignment_window_in_fourier(int, int, int)`
(`field.cpp:567-594`): product of per-axis `sinc(u)` values raised to the
kernel order, with `sinc(0) = 1` handled by the `i != 0` guards. -/
noncomputable def calc_assignment_window_in_fourier (p : ParameterSet)
    (i j k : ℤ) : ℝ :=
  let u_x := Real.pi * (i : ℝ) / (p.ngrid0 : ℝ)
  let u_y := Real.pi * (j : ℝ) / (p.ngrid1 : ℝ)
  let u_z := Real.pi * (k : ℝ) / (p.ngrid2 : ℝ)
  let wk_x := if i ≠ 0 then Real.sin u_x / u_x else 1
  let wk_y := if j ≠ 0 then Real.sin u_y / u_y else 1
  let wk_z := if k ≠ 0 then Real.sin u_z / u_z else 1
  (wk_x * wk_y * wk_z) ^ assignment_order p

/-- `FieldStats::calc_shotnoise_aliasing_ngp` (`field.cpp:1834-1836`). -/
noncomputable def calc_shotnoise_aliasing_ngp (p : ParameterSet)
    (i j k : ℤ) : ℝ := 1

/-- `FieldStats::calc_shotnoise_aliasing_cic` (`field.cpp:1838-1848`). -/
noncomputable def calc_shotnoise_aliasing_cic (p : ParameterSet)
    (i j k : ℤ) : ℝ :=
  let u_x := Real.pi * (i : ℝ) / (p.ngrid0 : ℝ)
  let u_y := Real.pi * (j : ℝ) / (p.ngrid1 : ℝ)
  let u_z := Real.pi * (k : ℝ) / (p.ngrid2 : ℝ)
  let cx2 := if i ≠ 0 then Real.sin u_x * Real.sin u_x else 0
  let cy2 := if j ≠ 0 then Real.sin u_y * Real.sin u_y else 0
  let cz2 := if k ≠ 0 then Real.sin u_z * Real.sin u_z else 0
  (1 - 2/3 * cx2) * (1 - 2/3 * cy2) * (1 - 2/3 * cz2)

/-- `FieldStats::calc_shotnoise_aliasing_tsc` (`field.cpp:1850-1862`). -/
noncomputable def calc_shotnoise_aliasing_tsc (p : ParameterSet)
    (i j k : ℤ) : ℝ :=
  let u_x := Real.pi * (i : ℝ) / (p.ngrid0 : ℝ)
  let u_y := Real.pi * (j : ℝ) / (p.ngrid1 : ℝ)
  let u_z := Real.pi * (k : ℝ) / (p.ngrid2 : ℝ)
  let cx2 := if i ≠ 0 then Real.sin u_x * Real.sin u_x else 0
  let cy2 := if j ≠ 0 then Real.sin u_y * Real.sin u_y else 0
  let cz2 := if k ≠ 0 then Real.sin u_z * Real.sin u_z else 0
  (1 - cx2 + 2/15 * cx2 * cx2) * (1 - cy2 + 2/15 * cy2 * cy2)
    * (1 - cz2 + 2/15 * cz2 * cz2)

/-- `FieldStats::calc_shotnoise_aliasing_pcs` (`field.cpp:1864-1876`). -/
noncomputable def calc_shotnoise_aliasing_pcs (p : ParameterSet)
    (i j k : ℤ) : ℝ :=
  let u_x := Real.pi * (i : ℝ) / (p.ngrid0 : ℝ)
  let u_y := Real.pi * (j : ℝ) / (p.ngrid1 : ℝ)
  let u_z := Real.pi * (k : ℝ) / (p.ngrid2 : ℝ)
  let cx2 := if i ≠ 0 then Real.sin u_x * Real.sin u_x else 0
  let cy2 := if j ≠ 0 then Real.sin u_y * Real.sin u_y else 0
  let cz2 := if k ≠ 0 then Real.sin u_z * Real.sin u_z else 0
  (1 - 4/3 * cx2 + 2/5 * cx2 * cx2 - 4/315 * cx2 * cx2 * cx2)
    * (1 - 4/3 * cy2 + 2/5 * cy2 * cy2 - 4/315 * cy2 * cy2 * cy2)
    * (1 - 4/3 * cz2 + 2/5 * cz2 * cz2 - 4/315 * cz2 * cz2 * cz2)

/-- `FieldStats::calc_shotnoise_aliasing(int, int, int)`
(`field.cpp:1817-1832`): dispatch on the assignment selector; an
unrecognised selector falls through to the default `return 1.;` WITHOUT
raising any error. -/
noncomputable def calc_shotnoise_aliasing (p : ParameterSet)
    (i j k : ℤ) : ℝ :=
  if p.assignment = "ngp" then calc_shotnoise_aliasing_ngp p i j k
  else if p.assignment = "cic" then calc_shotnoise_aliasing_cic p i j k
  else if p.assignment = "tsc" then calc_shotnoise_aliasing_tsc p i j k
  else if p.assignment = "pcs" then calc_shotnoise_aliasing_pcs p i j k
  else 1

/-- `eps_gridsize_fourier` (`field.cpp:33`). -/
noncomputable def eps_gridsize_fourier : ℝ := 1 / 100000

/-- The wavevector-to-grid-index translation shared by
`calc_shotnoise_aliasing(double[3])` (`field.cpp:1807-1815`) and
`calc_assignment_window_in_fourier(double[3])` (`field.cpp:596-604`):
`int(kvec / dk + eps)` per axis. -/
noncomputable def wavevector_grid_idx (p : ParameterSet) (kv : ℝ × ℝ × ℝ) :
    ℤ × ℤ × ℤ :=
  ( cppTrunc (kv.1 / dk0 p + eps_gridsize_fourier)
  , cppTrunc (kv.2.1 / dk1 p + eps_gridsize_fourier)
  , cppTrunc (kv.2.2 / dk2 p + eps_gridsize_fourier) )

/-- `FieldStats::calc_shotnoise_aliasing(double[3])`
(`field.cpp:1807-1815`). -/
noncomputable def calc_shotnoise_aliasing_kv (p : ParameterSet)
    (kv : ℝ × ℝ × ℝ) : ℝ :=
  let t := wavevector_grid_idx p kv
  calc_shotnoise_aliasing p t.1 t.2.1 t.2.2

/-- `MeshField::calc_assignment_window_in_fourier(double[3])`
(`field.cpp:596-604`). -/
noncomputable def calc_assignment_window_in_fourier_kv (p : ParameterSet)
    (kv : ℝ × ℝ × ℝ) : ℝ :=
  let t := wavevector_grid_idx p kv
  calc_assignment_window_in_fourier p t.1 t.2.1 t.2.2

/-! ## Spectral transforms (`field.cpp:826-915`) -/

/-- Modelled from the spec: the external FFTW library's unnormalised
forward 3-D DFT (`fftw_plan_dft_3d(..., FFTW_FORWARD, ...)`),
`Y[m] = Σ_x X[x] · exp(-2πi (x0·m0/n0 + x1·m1/n1 + x2·m2/n2))`, acting on
the row-major buffer viewed as a 3-D array. -/
noncomputable def dft3_forward (n0 n1 n2 : ℕ)
    [NeZero n0] [NeZero n1] [NeZero n2]
    (f : ZMod n0 × ZMod n1 × ZMod n2 → ℂ)
    (m : ZMod n0 × ZMod n1 × ZMod n2) : ℂ :=
  ∑ x : ZMod n0 × ZMod n1 × ZMod n2,
    f x * Complex.exp (-(2 * Real.pi * Complex.I) *
      (((x.1.val * m.1.val : ℕ) : ℂ) / (n0 : ℂ)
        + ((x.2.1.val * m.2.1.val : ℕ) : ℂ) / (n1 : ℂ)
        + ((x.2.2.val * m.2.2.val : ℕ) : ℂ) / (n2 : ℂ)))

/-- Modelled from the spec: the external FFTW library's unnormalised
backward 3-D DFT (`FFTW_BACKWARD`), same sum with `exp(+2πi(...))`. -/
noncomputable def dft3_backward (n0 n1 n2 : ℕ)
    [NeZero n0] [NeZero n1] [NeZero n2]
    (f : ZMod n0 × ZMod n1 × ZMod n2 → ℂ)
    (m : ZMod n0 × ZMod n1 × ZMod n2) : ℂ :=
  ∑ x : ZMod n0 × ZMod n1 × ZMod n2,
    f x * Complex.exp ((2 * Real.pi * Complex.I) *
      (((x.1.val * m.1.val : ℕ) : ℂ) / (n0 : ℂ)
        + ((x.2.1.val * m.2.1.val : ℕ) : ℂ) / (n1 : ℂ)
        + ((x.2.2.val * m.2.2.val : ℕ) : ℂ) / (n2 : ℂ)))

lemma exp_neg_eq_stdAddChar (n : ℕ) [NeZero n] (x m : ZMod n) :
    Complex.exp (-(2 * Real.pi * Complex.I)
        * (((x.val * m.val : ℕ) : ℂ) / (n : ℂ)))
      = ZMod.stdAddChar (-(x * m)) := by
  have hx : -(x * m) = (((-((x.val : ℤ) * (m.val : ℤ))) : ℤ) : ZMod n) := by
    push_cast
    rw [ZMod.natCast_val, ZMod.natCast_val, ZMod.cast_id, ZMod.cast_id]
  rw [hx, ZMod.stdAddChar_coe]
  congr 1
  push_cast
  ring

lemma exp_pos_eq_stdAddChar (n : ℕ) [NeZero n] (x m : ZMod n) :
    Complex.exp ((2 * Real.pi * Complex.I)
        * (((x.val * m.val : ℕ) : ℂ) / (n : ℂ)))
      = ZMod.stdAddChar (x * m) := by
  have hx : x * m = ((((x.val : ℤ) * (m.val : ℤ)) : ℤ) : ZMod n) := by
    push_cast
    rw [ZMod.natCast_val, ZMod.natCast_val, ZMod.cast_id, ZMod.cast_id]
  rw [hx, ZMod.stdAddChar_coe]
  congr 1
  push_cast
  ring

/-- Orthogonality of the standard additive character on `ZMod n`. -/
lemma sum_stdAddChar_mul (n : ℕ) [NeZero n] (t : ZMod n) :
    ∑ x : ZMod n, ZMod.stdAddChar (t * x) = if t = 0 then (n : ℂ) else 0 := by
  split_ifs with h
  · subst h
    simp [ZMod.card]
  · have h1 := AddChar.sum_eq_zero_of_ne_one (ZMod.isPrimitive_stdAddChar n h)
    simpa [AddChar.mulShift_apply] using h1

/-- Orthogonality for the product character on the 3-D index group. -/
lemma sum_char3 (n0 n1 n2 : ℕ) [NeZero n0] [NeZero n1] [NeZero n2]
    (t : ZMod n0 × ZMod n1 × ZMod n2) :
    ∑ x : ZMod n0 × ZMod n1 × ZMod n2,
      ZMod.stdAddChar (t.1 * x.1) * ZMod.stdAddChar (t.2.1 * x.2.1)
        * ZMod.stdAddChar (t.2.2 * x.2.2)
      = if t = 0 then ((n0 * n1 * n2 : ℕ) : ℂ) else 0 := by
  have h1 : ∑ x : ZMod n0 × ZMod n1 × ZMod n2,
      ZMod.stdAddChar (t.1 * x.1) * ZMod.stdAddChar (t.2.1 * x.2.1)
        * ZMod.stdAddChar (t.2.2 * x.2.2)
      = (∑ a : ZMod n0, ZMod.stdAddChar (t.1 * a))
        * ∑ bc : ZMod n1 × ZMod n2,
            ZMod.stdAddChar (t.2.1 * bc.1) * ZMod.stdAddChar (t.2.2 * bc.2) := by
    rw [Finset.sum_mul_sum, Fintype.sum_prod_type]
    apply Finset.sum_congr rfl; intro a _
    apply Finset.sum_congr rfl; intro bc _
    ring
  have h2 : ∑ bc : ZMod n1 × ZMod n2,
      ZMod.stdAddChar (t.2.1 * bc.1) * ZMod.stdAddChar (t.2.2 * bc.2)
      = (∑ b : ZMod n1, ZMod.stdAddChar (t.2.1 * b))
        * ∑ c : ZMod n2, ZMod.stdAddChar (t.2.2 * c) := by
    rw [Finset.sum_mul_sum, Fintype.sum_prod_type]
  rw [h1, h2, sum_stdAddChar_mul, sum_stdAddChar_mul, sum_stdAddChar_mul]
  rcases t with ⟨t1, t2, t3⟩
  simp only [Prod.mk_eq_zero]
  by_cases hc1 : t1 = 0 <;> by_cases hc2 : t2 = 0 <;> by_cases hc3 : t3 = 0 <;>
    simp [hc1, hc2, hc3] <;> push_cast <;> ring

set_option maxHeartbeats 800000 in
/-- Backward-after-forward DFT multiplies pointwise by the total number of
samples (FFTW's documented convention for unnormalised transforms). -/
lemma dft3_backward_forward (n0 n1 n2 : ℕ)
    [NeZero n0] [NeZero n1] [NeZero n2]
    (f : ZMod n0 × ZMod n1 × ZMod n2 → ℂ)
    (y : ZMod n0 × ZMod n1 × ZMod n2) :
    dft3_backward n0 n1 n2 (dft3_forward n0 n1 n2 f) y
      = ((n0 * n1 * n2 : ℕ) : ℂ) * f y := by
  have hsum : ∀ m : ZMod n0 × ZMod n1 × ZMod n2,
      dft3_forward n0 n1 n2 f m
        * Complex.exp ((2 * Real.pi * Complex.I) *
          (((m.1.val * y.1.val : ℕ) : ℂ) / (n0 : ℂ)
            + ((m.2.1.val * y.2.1.val : ℕ) : ℂ) / (n1 : ℂ)
            + ((m.2.2.val * y.2.2.val : ℕ) : ℂ) / (n2 : ℂ)))
      = ∑ x : ZMod n0 × ZMod n1 × ZMod n2,
          f x * (ZMod.stdAddChar ((y.1 - x.1) * m.1)
            * ZMod.stdAddChar ((y.2.1 - x.2.1) * m.2.1)
            * ZMod.stdAddChar ((y.2.2 - x.2.2) * m.2.2)) := by
    intro m
    rw [dft3_forward, Finset.sum_mul]
    apply Finset.sum_congr rfl; intro x _
    have e1 : -(2 * Real.pi * Complex.I) *
        (((x.1.val * m.1.val : ℕ) : ℂ) / (n0 : ℂ)
          + ((x.2.1.val * m.2.1.val : ℕ) : ℂ) / (n1 : ℂ)
          + ((x.2.2.val * m.2.2.val : ℕ) : ℂ) / (n2 : ℂ))
        = -(2 * Real.pi * Complex.I) * (((x.1.val * m.1.val : ℕ) : ℂ) / (n0 : ℂ))
          + (-(2 * Real.pi * Complex.I) * (((x.2.1.val * m.2.1.val : ℕ) : ℂ) / (n1 : ℂ))
            + -(2 * Real.pi * Complex.I) * (((x.2.2.val * m.2.2.val : ℕ) : ℂ) / (n2 : ℂ))) := by
      ring
    have e2 : (2 * Real.pi * Complex.I) *
        (((m.1.val * y.1.val : ℕ) : ℂ) / (n0 : ℂ)
          + ((m.2.1.val * y.2.1.val : ℕ) : ℂ) / (n1 : ℂ)
          + ((m.2.2.val * y.2.2.val : ℕ) : ℂ) / (n2 : ℂ))
        = (2 * Real.pi * Complex.I) * (((m.1.val * y.1.val : ℕ) : ℂ) / (n0 : ℂ))
          + ((2 * Real.pi * Complex.I) * (((m.2.1.val * y.2.1.val : ℕ) : ℂ) / (n1 : ℂ))
            + (2 * Real.pi * Complex.I) * (((m.2.2.val * y.2.2.val : ℕ) : ℂ) / (n2 : ℂ))) := by
      ring
    rw [e1, e2, Complex.exp_add, Complex.exp_add, Complex.exp_add, Complex.exp_add]
    rw [exp_neg_eq_stdAddChar n0 x.1 m.1, exp_neg_eq_stdAddChar n1 x.2.1 m.2.1,
      exp_neg_eq_stdAddChar n2 x.2.2 m.2.2,
      exp_pos_eq_stdAddChar n0 m.1 y.1, exp_pos_eq_stdAddChar n1 m.2.1 y.2.1,
      exp_pos_eq_stdAddChar n2 m.2.2 y.2.2]
    have c0 : ZMod.stdAddChar (-(x.1 * m.1)) * ZMod.stdAddChar (m.1 * y.1)
        = ZMod.stdAddChar ((y.1 - x.1) * m.1) := by
      rw [← AddChar.map_add_eq_mul]
      congr 1
      ring
    have c1 : ZMod.stdAddChar (-(x.2.1 * m.2.1)) * ZMod.stdAddChar (m.2.1 * y.2.1)
        = ZMod.stdAddChar ((y.2.1 - x.2.1) * m.2.1) := by
      rw [← AddChar.map_add_eq_mul]
      congr 1
      ring
    have c2 : ZMod.stdAddChar (-(x.2.2 * m.2.2)) * ZMod.stdAddChar (m.2.2 * y.2.2)
        = ZMod.stdAddChar ((y.2.2 - x.2.2) * m.2.2) := by
      rw [← AddChar.map_add_eq_mul]
      congr 1
      ring
    rw [← c0, ← c1, ← c2]
    ring
  rw [dft3_backward]
  rw [Finset.sum_congr rfl (fun m _ => hsum m)]
  rw [Finset.sum_comm]
  have hx : ∀ x : ZMod n0 × ZMod n1 × ZMod n2,
      (∑ m : ZMod n0 × ZMod n1 × ZMod n2,
        f x * (ZMod.stdAddChar ((y.1 - x.1) * m.1)
          * ZMod.stdAddChar ((y.2.1 - x.2.1) * m.2.1)
          * ZMod.stdAddChar ((y.2.2 - x.2.2) * m.2.2)))
      = f x * (if (y.1 - x.1, y.2.1 - x.2.1, y.2.2 - x.2.2)
            = (0 : ZMod n0 × ZMod n1 × ZMod n2)
          then ((n0 * n1 * n2 : ℕ) : ℂ) else 0) := by
    intro x
    rw [← Finset.mul_sum]
    congr 1
    exact sum_char3 n0 n1 n2 (y.1 - x.1, y.2.1 - x.2.1, y.2.2 - x.2.2)
  rw [Finset.sum_congr rfl (fun x _ => hx x)]
  rw [Finset.sum_eq_single y]
  · simp
    ring
  · intro x _ hxy
    have hne : ¬((y.1 - x.1, y.2.1 - x.2.1, y.2.2 - x.2.2)
        = (0 : ZMod n0 × ZMod n1 × ZMod n2)) := by
      simp only [Prod.mk_eq_zero, sub_eq_zero]
      intro hc
      exact hxy (by
        rcases x with ⟨x1, x2, x3⟩
        rcases y with ⟨y1, y2, y3⟩
        simp only at hc
        simp [hc.1.symm, hc.2.1.symm, hc.2.2.symm])
    simp [hne]
  · intro hy
    exact absurd (Finset.mem_univ y) hy

/-- `MeshField::fourier_transform` (`field.cpp:826-896`), the
`interlace == "false"` path: multiply every sample by `vol_cell`, then
apply the unnormalised forward DFT in place. -/
noncomputable def fourier_transform (p : ParameterSet)
    [NeZero p.ngrid0] [NeZero p.ngrid1] [NeZero p.ngrid2]
    (f : ZMod p.ngrid0 × ZMod p.ngrid1 × ZMod p.ngrid2 → ℂ) :
    ZMod p.ngrid0 × ZMod p.ngrid1 × ZMod p.ngrid2 → ℂ :=
  dft3_forward p.ngrid0 p.ngrid1 p.ngrid2
    (fun x => f x * ((vol_cell p : ℝ) : ℂ))

/-- `MeshField::inv_fourier_transform` (`field.cpp:898-915`): divide every
sample by the total volume `vol`, then apply the unnormalised backward DFT
in place. -/
noncomputable def inv_fourier_transform (p : ParameterSet)
    [NeZero p.ngrid0] [NeZero p.ngrid1] [NeZero p.ngrid2]
    (f : ZMod p.ngrid0 × ZMod p.ngrid1 × ZMod p.ngrid2 → ℂ) :
    ZMod p.ngrid0 × ZMod p.ngrid1 × ZMod p.ngrid2 → ℂ :=
  dft3_backward p.ngrid0 p.ngrid1 p.ngrid2
    (fun x => f x / ((volume p : ℝ) : ℂ))

/-! ## Field statistics (`field.cpp:1128-1800`) -/

/-- `FieldStats::if_fields_compatible` (`field.cpp:1180-1209`):
the statistics object's parameters are compared against both fields'
parameters axis by axis (box size and grid resolution), then the derived
quantities are checked.  The source's derived-volume check compares
`params.volume` against `field_b` TWICE (never against `field_a`); this is
reproduced faithfully. -/
def if_fields_compatible (ps pa pb : ParameterSet) : Prop :=
  (ps.boxsize0 = pa.boxsize0 ∧ ps.boxsize0 = pb.boxsize0
    ∧ ps.ngrid0 = pa.ngrid0 ∧ ps.ngrid0 = pb.ngrid0)
  ∧ (ps.boxsize1 = pa.boxsize1 ∧ ps.boxsize1 = pb.boxsize1
    ∧ ps.ngrid1 = pa.ngrid1 ∧ ps.ngrid1 = pb.ngrid1)
  ∧ (ps.boxsize2 = pa.boxsize2 ∧ ps.boxsize2 = pb.boxsize2
    ∧ ps.ngrid2 = pa.ngrid2 ∧ ps.ngrid2 = pb.ngrid2)
  ∧ (nmesh ps = nmesh pa ∧ nmesh ps = nmesh pb
    ∧ volume ps = volume pb ∧ volume ps = volume pb)

/-- Fine pre-binning table length, `const int n_sample = 1e5`
(`field.cpp:1242`, `field.cpp:1436`). -/
def n_sample : ℕ := 100000

/-- Fine wavenumber spacing, `const double dk_sample = 1.e-4`
(`field.cpp:1243`). -/
noncomputable def dk_sample : ℝ := 1 / 10000

/-- Fine separation spacing, `const double dr_sample = 0.5`
(`field.cpp:1437`). -/
noncomputable def dr_sample : ℝ := 1 / 2

/-- Binning specification (external input, spec §3/§6): `num_bins` bin
edges plus one, strictly increasing, and `num_bins` bin centres. -/
structure Binning where
  num_bins : ℕ
  bin_edges : ℕ → ℝ
  bin_centres : ℕ → ℝ

/-- Fine bin index of a magnitude: `int(mag / d + 0.5)`
(`field.cpp:1269`, `field.cpp:1460`). -/
noncomputable def fine_idx (d mag : ℝ) : ℤ := cppTrunc (mag / d + 1/2)

/-- Wavevector magnitude of grid mode `(i,j,k)` (`field.cpp:1267`). -/
noncomputable def kmag (p : ParameterSet) (m : ℕ × ℕ × ℕ) : ℝ :=
  get_vec3d_magnitude (get_grid_wavevector p m.1 m.2.1 m.2.2)

/-- Separation magnitude of grid cell `(i,j,k)` (`field.cpp:1458`). -/
noncomputable def rmag (p : ParameterSet) (m : ℕ × ℕ × ℕ) : ℝ :=
  get_vec3d_magnitude (get_grid_pos_vector p m.1 m.2.1 m.2.2)

/-- Fine tally `nmodes_sample[i]` / `npairs_sample[i]`
(`field.cpp:1307`, `field.cpp:1473`): number of grid modes/cells whose
magnitude falls in fine bin `i`. -/
noncomputable def fine_count (p : ParameterSet) (mag : ℕ × ℕ × ℕ → ℝ)
    (d : ℝ) (i : ℕ) : ℕ :=
  ((gridTriples p).filter (fun m => fine_idx d (mag m) = (i : ℤ))).card

/-- Fine real-valued accumulation `k_sample[i]` / `r_sample[i]`
(`field.cpp:1308`, `field.cpp:1474`). -/
noncomputable def fine_rval_sum (p : ParameterSet) (mag : ℕ × ℕ × ℕ → ℝ)
    (d : ℝ) (val : ℕ × ℕ × ℕ → ℝ) (i : ℕ) : ℝ :=
  ∑ m ∈ (gridTriples p).filter (fun m => fine_idx d (mag m) = (i : ℤ)), val m

/-- Fine complex-valued accumulation `pk_sample[i]` / `sn_sample[i]` /
`xi_sample[i]` (`field.cpp:1309-1310`, `field.cpp:1475`). -/
noncomputable def fine_cval_sum (p : ParameterSet) (mag : ℕ × ℕ × ℕ → ℝ)
    (d : ℝ) (val : ℕ × ℕ × ℕ → ℂ) (i : ℕ) : ℂ :=
  ∑ m ∈ (gridTriples p).filter (fun m => fine_idx d (mag m) = (i : ℤ)), val m

/-- Coarse re-binned count (`field.cpp:1317-1328`, `field.cpp:1482-1492`):
sum the fine tallies whose representative `i * d` satisfies
`edges[ibin] < i*d ≤ edges[ibin+1]`. -/
noncomputable def binned_count (p : ParameterSet) (mag : ℕ × ℕ × ℕ → ℝ)
    (d : ℝ) (b : Binning) (ibin : ℕ) : ℕ :=
  ∑ i ∈ Finset.range n_sample,
    if b.bin_edges ibin < (i : ℝ) * d ∧ (i : ℝ) * d ≤ b.bin_edges (ibin + 1)
    then fine_count p mag d i else 0

/-- Coarse re-binned real accumulation (same inclusion rule). -/
noncomputable def binned_rval_sum (p : ParameterSet) (mag : ℕ × ℕ × ℕ → ℝ)
    (d : ℝ) (val : ℕ × ℕ × ℕ → ℝ) (b : Binning) (ibin : ℕ) : ℝ :=
  ∑ i ∈ Finset.range n_sample,
    if b.bin_edges ibin < (i : ℝ) * d ∧ (i : ℝ) * d ≤ b.bin_edges (ibin + 1)
    then fine_rval_sum p mag d val i else 0

/-- Coarse re-binned complex accumulation (same inclusion rule). -/
noncomputable def binned_cval_sum (p : ParameterSet) (mag : ℕ × ℕ × ℕ → ℝ)
    (d : ℝ) (val : ℕ × ℕ × ℕ → ℂ) (b : Binning) (ibin : ℕ) : ℂ :=
  ∑ i ∈ Finset.range n_sample,
    if b.bin_edges ibin < (i : ℝ) * d ∧ (i : ℝ) * d ≤ b.bin_edges (ibin + 1)
    then fine_cval_sum p mag d val i else 0

/-- The mode counts of `FieldStats::compute_ylm_wgtd_2pt_stats_in_fourier`
(`this->nmodes[ibin]`): loops run over the statistics object's grid
(`this->params.ngrid`), wavevectors come from `field_a`'s geometry. -/
noncomputable def nmodes_binned (ps pa : ParameterSet) (b : Binning)
    (ibin : ℕ) : ℕ :=
  binned_count ps (kmag pa) dk_sample b ibin

/-- The pair counts of `FieldStats::compute_ylm_wgtd_2pt_stats_in_config`
(`this->npairs[ibin]`). -/
noncomputable def npairs_binned (ps pa : ParameterSet) (b : Binning)
    (ibin : ℕ) : ℕ :=
  binned_count ps (rmag pa) dr_sample b ibin

/-- The common grid correction (`field.cpp:1279-1294` and analogues): the
interlaced branch divides by the product of the two fields' assignment
windows; the non-interlaced branch (default build, `DBG_NOAC` undefined)
divides by the shot-noise aliasing scalar.  In both branches of the
default build the power and shot-noise corrections coincide
(`win_pk = win_sn`). -/
noncomputable def win_correction (ps pa pb : ParameterSet)
    (kv : ℝ × ℝ × ℝ) : ℝ :=
  if ps.interlace = "true" then
    calc_assignment_window_in_fourier_kv pa kv
      * calc_assignment_window_in_fourier_kv pb kv
  else calc_shotnoise_aliasing_kv ps kv

/-- The corrected, harmonic-weighted mode power `pk_mode`
(`field.cpp:1271-1304`): `fa · conj(fb)`, divided by the grid correction,
weighted by the reduced spherical harmonic at the wavevector.  The
harmonic evaluator `ylmF` is an external special-function provider
(spec §2), passed as a parameter. -/
noncomputable def pk_mode (ps pa pb : ParameterSet) (fa fb : ℤ → ℂ)
    (ylmF : ℝ × ℝ × ℝ → ℂ) (m : ℕ × ℕ × ℕ) : ℂ :=
  let idx := get_grid_index pa (m.1 : ℤ) (m.2.1 : ℤ) (m.2.2 : ℤ)
  let kv := get_grid_wavevector pa m.1 m.2.1 m.2.2
  fa idx * (starRingEnd ℂ) (fb idx) / ((win_correction ps pa pb kv : ℝ) : ℂ)
    * ylmF kv

/-- The corrected, harmonic-weighted shot-noise term `sn_mode`
(`field.cpp:1275-1304`). -/
noncomputable def sn_mode (ps pa pb : ParameterSet) (snAmp : ℂ)
    (ylmF : ℝ × ℝ × ℝ → ℂ) (m : ℕ × ℕ × ℕ) : ℂ :=
  let kv := get_grid_wavevector pa m.1 m.2.1 m.2.2
  snAmp * ((calc_shotnoise_aliasing_kv ps kv : ℝ) : ℂ)
      / ((win_correction ps pa pb kv : ℝ) : ℂ)
    * ylmF kv

/-- Final per-bin arrays of the Fourier-space statistic. -/
structure TwoPtStatsFourier where
  nmodes : ℕ → ℕ
  k : ℕ → ℝ
  pk : ℕ → ℂ
  sn : ℕ → ℂ

/-- Final per-bin arrays of the configuration-space statistic. -/
structure TwoPtStatsConfig where
  npairs : ℕ → ℕ
  r : ℕ → ℝ
  xi : ℕ → ℂ

open scoped Classical in
/-- `FieldStats::compute_ylm_wgtd_2pt_stats_in_fourier`
(`field.cpp:1216-1340`): check compatibility (throwing `InvalidData` on
mismatch), fine-bin the corrected mode powers, re-bin into the caller's
edges, and average by mode count with the nominal-centre/zero fallback for
empty bins. -/
noncomputable def compute_ylm_wgtd_2pt_stats_in_fourier
    (ps pa pb : ParameterSet) (fa fb : ℤ → ℂ) (snAmp : ℂ)
    (ylmF : ℝ × ℝ × ℝ → ℂ) (b : Binning) :
    Except String TwoPtStatsFourier :=
  if if_fields_compatible ps pa pb then
    Except.ok
      { nmodes := fun ibin => nmodes_binned ps pa b ibin
      , k := fun ibin =>
          if nmodes_binned ps pa b ibin ≠ 0 then
            binned_rval_sum ps (kmag pa) dk_sample (kmag pa) b ibin
              / (nmodes_binned ps pa b ibin : ℝ)
          else b.bin_centres ibin
      , pk := fun ibin =>
          if nmodes_binned ps pa b ibin ≠ 0 then
            binned_cval_sum ps (kmag pa) dk_sample
                (pk_mode ps pa pb fa fb ylmF) b ibin
              / ((nmodes_binned ps pa b ibin : ℝ) : ℂ)
          else 0
      , sn := fun ibin =>
          if nmodes_binned ps pa b ibin ≠ 0 then
            binned_cval_sum ps (kmag pa) dk_sample
                (sn_mode ps pa pb snAmp ylmF) b ibin
              / ((nmodes_binned ps pa b ibin : ℝ) : ℂ)
          else 0 }
  else Except.error "Input mesh fields have incompatible physical properties."

/-- The pre-transform shot-noise-subtracted power mesh `twopt_3d`
(`field.cpp:1371-1422`): corrected power minus corrected shot noise,
divided by the volume. -/
noncomputable def twopt_3d (ps pa pb : ParameterSet) (fa fb : ℤ → ℂ)
    (snAmp : ℂ) (m : ℕ × ℕ × ℕ) : ℂ :=
  (pk_mode ps pa pb fa fb (fun _ => 1) m - sn_mode ps pa pb snAmp (fun _ => 1) m)
    / ((volume ps : ℝ) : ℂ)

/-- The post-transform per-cell correlation value `xi_pair`
(`field.cpp:1424-1470`): the backward FFT of `twopt_3d` read at the cell,
weighted by the reduced spherical harmonic at the cell's position
vector. -/
noncomputable def xi_cell (ps pa pb : ParameterSet)
    [NeZero ps.ngrid0] [NeZero ps.ngrid1] [NeZero ps.ngrid2]
    (fa fb : ℤ → ℂ) (snAmp : ℂ) (ylmF : ℝ × ℝ × ℝ → ℂ)
    (m : ℕ × ℕ × ℕ) : ℂ :=
  ylmF (get_grid_pos_vector pa m.1 m.2.1 m.2.2)
    * dft3_backward ps.ngrid0 ps.ngrid1 ps.ngrid2
        (fun x => twopt_3d ps pa pb fa fb snAmp (x.1.val, x.2.1.val, x.2.2.val))
        ((m.1 : ZMod ps.ngrid0), (m.2.1 : ZMod ps.ngrid1), (m.2.2 : ZMod ps.ngrid2))

open scoped Classical in
/-- `FieldStats::compute_ylm_wgtd_2pt_stats_in_config`
(`field.cpp:1342-1504`): compatibility check, shot-noise-subtracted power
mesh, inverse FFT, harmonic weighting per cell, fine-then-coarse binning
by separation with the nominal-centre/zero fallback for empty bins. -/
noncomputable def compute_ylm_wgtd_2pt_stats_in_config
    (ps pa pb : ParameterSet)
    [NeZero ps.ngrid0] [NeZero ps.ngrid1] [NeZero ps.ngrid2]
    (fa fb : ℤ → ℂ) (snAmp : ℂ) (ylmF : ℝ × ℝ × ℝ → ℂ) (b : Binning) :
    Except String TwoPtStatsConfig :=
  if if_fields_compatible ps pa pb then
    Except.ok
      { npairs := fun ibin => npairs_binned ps pa b ibin
      , r := fun ibin =>
          if npairs_binned ps pa b ibin ≠ 0 then
            binned_rval_sum ps (rmag pa) dr_sample (rmag pa) b ibin
              / (npairs_binned ps pa b ibin : ℝ)
          else b.bin_centres ibin
      , xi := fun ibin =>
          if npairs_binned ps pa b ibin ≠ 0 then
            binned_cval_sum ps (rmag pa) dr_sample
                (xi_cell ps pa pb fa fb snAmp ylmF) b ibin
              / ((npairs_binned ps pa b ibin : ℝ) : ℂ)
          else 0 }
  else Except.error "Input mesh fields have incompatible physical properties."

/-! ## Band-limited inverse transform mode counting
(`field.cpp:973-1037`) -/

/-- The number of grid modes whose wavevector magnitude lies in the band
`(k_lower, k_upper]`, as counted by `nmodes++` in
`MeshField::inv_fourier_transform_ylm_wgtd_field_band_limited`
(`field.cpp:985-1018`). -/
noncomputable def band_nmodes (p : ParameterSet) (k_lower k_upper : ℝ) : ℕ :=
  ((gridTriples p).filter
    (fun m => k_lower < kmag p m ∧ kmag p m ≤ k_upper)).card

/-! ## Claim theorems -/

/-- Spec's closed-form CIC aliasing factor: product over axes of
`1 − (2/3)·sin²u` with `u = π·index/resolution`. -/
noncomputable def aliasing_closed_form_cic (p : ParameterSet)
    (i j k : ℤ) : ℝ :=
  (1 - 2/3 * Real.sin (Real.pi * (i : ℝ) / (p.ngrid0 : ℝ)) ^ 2)
    * (1 - 2/3 * Real.sin (Real.pi * (j : ℝ) / (p.ngrid1 : ℝ)) ^ 2)
    * (1 - 2/3 * Real.sin (Real.pi * (k : ℝ) / (p.ngrid2 : ℝ)) ^ 2)

/-- Spec's closed-form TSC aliasing factor: product over axes of
`1 − sin²u + (2/15)·sin⁴u`. -/
noncomputable def aliasing_closed_form_tsc (p : ParameterSet)
    (i j k : ℤ) : ℝ :=
  (1 - Real.sin (Real.pi * (i : ℝ) / (p.ngrid0 : ℝ)) ^ 2
      + 2/15 * Real.sin (Real.pi * (i : ℝ) / (p.ngrid0 : ℝ)) ^ 4)
    * (1 - Real.sin (Real.pi * (j : ℝ) / (p.ngrid1 : ℝ)) ^ 2
      + 2/15 * Real.sin (Real.pi * (j : ℝ) / (p.ngrid1 : ℝ)) ^ 4)
    * (1 - Real.sin (Real.pi * (k : ℝ) / (p.ngrid2 : ℝ)) ^ 2
      + 2/15 * Real.sin (Real.pi * (k : ℝ) / (p.ngrid2 : ℝ)) ^ 4)

/-- Spec's closed-form PCS aliasing factor: product over axes of
`1 − (4/3)·sin²u + (2/5)·sin⁴u − (4/315)·sin⁶u`. -/
noncomputable def aliasing_closed_form_pcs (p : ParameterSet)
    (i j k : ℤ) : ℝ :=
  (1 - 4/3 * Real.sin (Real.pi * (i : ℝ) / (p.ngrid0 : ℝ)) ^ 2
      + 2/5 * Real.sin (Real.pi * (i : ℝ) / (p.ngrid0 : ℝ)) ^ 4
      - 4/315 * Real.sin (Real.pi * (i : ℝ) / (p.ngrid0 : ℝ)) ^ 6)
    * (1 - 4/3 * Real.sin (Real.pi * (j : ℝ) / (p.ngrid1 : ℝ)) ^ 2
      + 2/5 * Real.sin (Real.pi * (j : ℝ) / (p.ngrid1 : ℝ)) ^ 4
      - 4/315 * Real.sin (Real.pi * (j : ℝ) / (p.ngrid1 : ℝ)) ^ 6)
    * (1 - 4/3 * Real.sin (Real.pi * (k : ℝ) / (p.ngrid2 : ℝ)) ^ 2
      + 2/5 * Real.sin (Real.pi * (k : ℝ) / (p.ngrid2 : ℝ)) ^ 4
      - 4/315 * Real.sin (Real.pi * (k : ℝ) / (p.ngrid2 : ℝ)) ^ 6)

lemma sin_sq_guard (i : ℤ) (n : ℕ) :
    (if i ≠ 0 then
        Real.sin (Real.pi * (i : ℝ) / (n : ℝ)) * Real.sin (Real.pi * (i : ℝ) / (n : ℝ))
      else 0)
      = Real.sin (Real.pi * (i : ℝ) / (n : ℝ)) ^ 2 := by
  by_cases h : i = 0
  · simp [h]
  · simp [h, sq]

/-- C3: for every grid index triple, the shot-noise aliasing-correction
scalar dispatched on the configured kernel equals the spec's closed-form
expression: identically 1 for NGP; the stated sin-polynomial products for
CIC, TSC and PCS. -/
theorem C3_aliasing_matches_closed_form (p : ParameterSet) (i j k : ℤ) :
    (p.assignment = "ngp" → calc_shotnoise_aliasing p i j k = 1)
    ∧ (p.assignment = "cic" →
        calc_shotnoise_aliasing p i j k = aliasing_closed_form_cic p i j k)
    ∧ (p.assignment = "tsc" →
        calc_shotnoise_aliasing p i j k = aliasing_closed_form_tsc p i j k)
    ∧ (p.assignment = "pcs" →
        calc_shotnoise_aliasing p i j k = aliasing_closed_form_pcs p i j k) := by
  refine ⟨?_, ?_, ?_, ?_⟩
  · intro h
    simp [calc_shotnoise_aliasing, h, calc_shotnoise_aliasing_ngp]
  · intro h
    simp only [calc_shotnoise_aliasing, h]
    rw [if_neg (show ¬("cic" = "ngp") from by decide), if_pos trivial]
    simp only [calc_shotnoise_aliasing_cic, aliasing_closed_form_cic,
      sin_sq_guard]
  · intro h
    simp only [calc_shotnoise_aliasing, h]
    rw [if_neg (show ¬("tsc" = "ngp") from by decide),
      if_neg (show ¬("tsc" = "cic") from by decide), if_pos trivial]
    simp only [calc_shotnoise_aliasing_tsc, aliasing_closed_form_tsc,
      sin_sq_guard]
    ring
  · intro h
    simp only [calc_shotnoise_aliasing, h]
    rw [if_neg (show ¬("pcs" = "ngp") from by decide),
      if_neg (show ¬("pcs" = "cic") from by decide),
      if_neg (show ¬("pcs" = "tsc") from by decide), if_pos trivial]
    simp only [calc_shotnoise_aliasing_pcs, aliasing_closed_form_pcs,
      sin_sq_guard]
    ring

/-- C3 witness: the CIC case evaluated at a concrete parameter set and
index triple. -/
theorem C3_aliasing_matches_closed_form_witness :
    calc_shotnoise_aliasing ⟨4, 4, 4, 1, 1, 1, "cic", "false"⟩ 1 2 3
      = aliasing_closed_form_cic ⟨4, 4, 4, 1, 1, 1, "cic", "false"⟩ 1 2 3 :=
  (C3_aliasing_matches_closed_form ⟨4, 4, 4, 1, 1, 1, "cic", "false"⟩ 1 2 3).2.1
    rfl

/-- C9: the band-limited inverse transform divides by the mode count
without a zero guard; under the precondition that at least one grid mode
magnitude lies in the half-open band, the count is at least 1 and the
divisor `double(nmodes)` is nonzero. -/
theorem C9_band_limited_nmodes_pos (p : ParameterSet) (k_lower k_upper : ℝ)
    (hex : ∃ m ∈ gridTriples p, k_lower < kmag p m ∧ kmag p m ≤ k_upper) :
    1 ≤ band_nmodes p k_lower k_upper
      ∧ ((band_nmodes p k_lower k_upper : ℝ) ≠ 0) := by
  obtain ⟨m, hm, hband⟩ := hex
  have hcard : 0 < band_nmodes p k_lower k_upper := by
    rw [band_nmodes, Finset.card_pos]
    exact ⟨m, Finset.mem_filter.mpr ⟨hm, by simpa using hband⟩⟩
  refine ⟨hcard, ?_⟩
  exact_mod_cast Nat.pos_iff_ne_zero.mp hcard

/-- C9 witness: a 2×2×2 grid in a unit box has its zero mode (magnitude 0)
inside the band `(-1, 1]`. -/
theorem C9_band_limited_nmodes_pos_witness :
    (∃ m ∈ gridTriples ⟨2, 2, 2, 1, 1, 1, "ngp", "false"⟩,
        (-1 : ℝ) < kmag ⟨2, 2, 2, 1, 1, 1, "ngp", "false"⟩ m
          ∧ kmag ⟨2, 2, 2, 1, 1, 1, "ngp", "false"⟩ m ≤ 1)
    ∧ 1 ≤ band_nmodes ⟨2, 2, 2, 1, 1, 1, "ngp", "false"⟩ (-1) 1
    ∧ ((band_nmodes ⟨2, 2, 2, 1, 1, 1, "ngp", "false"⟩ (-1) 1 : ℝ) ≠ 0) := by
  have hmem : ((0, 0, 0) : ℕ × ℕ × ℕ)
      ∈ gridTriples ⟨2, 2, 2, 1, 1, 1, "ngp", "false"⟩ := by
    rw [mem_gridTriples]
    norm_num
  have hmag : kmag ⟨2, 2, 2, 1, 1, 1, "ngp", "false"⟩ (0, 0, 0) = 0 := by
    simp [kmag, get_grid_wavevector, get_vec3d_magnitude]
  have hex : ∃ m ∈ gridTriples ⟨2, 2, 2, 1, 1, 1, "ngp", "false"⟩,
      (-1 : ℝ) < kmag ⟨2, 2, 2, 1, 1, 1, "ngp", "false"⟩ m
        ∧ kmag ⟨2, 2, 2, 1, 1, 1, "ngp", "false"⟩ m ≤ 1 := by
    refine ⟨(0, 0, 0), hmem, ?_⟩
    rw [hmag]
    norm_num
  exact ⟨hex, C9_band_limited_nmodes_pos _ _ _ hex⟩

/-- C10: the in-situ fluctuation conversion subtracts the mean density
only from the real component; every cell's imaginary component equals that
of the assigned count field. -/
theorem C10_fluctuations_preserve_imag (p : ParameterSet)
    (pos : List (ℝ × ℝ × ℝ)) (f : ℤ → ℂ)
    (h : compute_unweighted_field p pos = Except.ok f) :
    ∃ g : ℤ → ℂ,
      compute_unweighted_field_fluctuations_insitu p pos = Except.ok g
        ∧ ∀ gid : ℤ, (g gid).im = (f gid).im := by
  refine ⟨_, by rw [compute_unweighted_field_fluctuations_insitu, h]; rfl, ?_⟩
  intro gid
  by_cases hg : 0 ≤ gid ∧ gid < (nmesh p : ℤ)
  · simp [hg]
  · simp [hg]

/-- C10 witness: concrete NGP configuration with one particle. -/
theorem C10_fluctuations_preserve_imag_witness :
    compute_unweighted_field ⟨2, 2, 2, 1, 1, 1, "ngp", "false"⟩ [(0, 0, 0)]
        = Except.ok (assign_weighted_field_to_mesh_ngp
            ⟨2, 2, 2, 1, 1, 1, "ngp", "false"⟩ [((0, 0, 0), 1)])
    ∧ ∃ g : ℤ → ℂ,
        compute_unweighted_field_fluctuations_insitu
            ⟨2, 2, 2, 1, 1, 1, "ngp", "false"⟩ [(0, 0, 0)] = Except.ok g
          ∧ ∀ gid : ℤ,
              (g gid).im = (assign_weighted_field_to_mesh_ngp
                ⟨2, 2, 2, 1, 1, 1, "ngp", "false"⟩ [((0, 0, 0), 1)] gid).im := by
  have h : compute_unweighted_field ⟨2, 2, 2, 1, 1, 1, "ngp", "false"⟩
      [(0, 0, 0)]
      = Except.ok (assign_weighted_field_to_mesh_ngp
          ⟨2, 2, 2, 1, 1, 1, "ngp", "false"⟩ [((0, 0, 0), 1)]) := by
    rw [compute_unweighted_field, assign_weighted_field_to_mesh]
    rfl
  exact ⟨h, C10_fluctuations_preserve_imag _ _ _ h⟩

/-- C7 counterexample: with the unrecognised selector `"quux"`, the
shot-noise aliasing dispatch does NOT raise a fatal configuration error:
it silently returns the default value 1 and the computation proceeds,
contradicting the claim that every operation consuming the selector
aborts. -/
theorem C7_counterexample_aliasing_default :
    ((⟨2, 2, 2, 1, 1, 1, "quux", "false"⟩ : ParameterSet).assignment ≠ "ngp"
      ∧ (⟨2, 2, 2, 1, 1, 1, "quux", "false"⟩ : ParameterSet).assignment ≠ "cic"
      ∧ (⟨2, 2, 2, 1, 1, 1, "quux", "false"⟩ : ParameterSet).assignment ≠ "tsc"
      ∧ (⟨2, 2, 2, 1, 1, 1, "quux", "false"⟩ : ParameterSet).assignment ≠ "pcs")
    ∧ calc_shotnoise_aliasing ⟨2, 2, 2, 1, 1, 1, "quux", "false"⟩ 1 2 3 = 1 := by
  refine ⟨⟨?_, ?_, ?_, ?_⟩, ?_⟩ <;> simp [calc_shotnoise_aliasing]

/-- C7 (amended): an unrecognised assignment selector makes the mesh
assignment dispatch fail with the fatal configuration error, while the
shot-noise aliasing dispatch silently returns the default value 1 and
proceeds. -/
theorem C7_unknown_kernel_behaviour (p : ParameterSet)
    (parts : List ((ℝ × ℝ × ℝ) × ℂ)) (i j k : ℤ)
    (h1 : p.assignment ≠ "ngp") (h2 : p.assignment ≠ "cic")
    (h3 : p.assignment ≠ "tsc") (h4 : p.assignment ≠ "pcs") :
    assign_weighted_field_to_mesh p parts
        = Except.error "Unsupported mesh assignment scheme."
      ∧ calc_shotnoise_aliasing p i j k = 1 := by
  constructor
  · simp [assign_weighted_field_to_mesh, h1, h2, h3, h4]
  · simp [calc_shotnoise_aliasing, h1, h2, h3, h4]

/-- C7 witness: the amended behaviour at the concrete selector `"quux"`. -/
theorem C7_unknown_kernel_behaviour_witness :
    assign_weighted_field_to_mesh ⟨2, 2, 2, 1, 1, 1, "quux", "false"⟩ []
        = Except.error "Unsupported mesh assignment scheme."
      ∧ calc_shotnoise_aliasing ⟨2, 2, 2, 1, 1, 1, "quux", "false"⟩ 0 0 0 = 1 :=
  C7_unknown_kernel_behaviour ⟨2, 2, 2, 1, 1, 1, "quux", "false"⟩ [] 0 0 0
    (by simp) (by simp) (by simp) (by simp)

/-- C6: a pair of mesh fields mismatched in box size, grid resolution or
total cell count on any axis fails the compatibility check and makes the
Fourier-space statistics operation return the fatal data-consistency
error before computing anything; a pair identical in those quantities
(shared by a consistently configured statistics object) passes the
check. -/
theorem C6_compatibility_check (ps pa pb : ParameterSet) (fa fb : ℤ → ℂ)
    (snAmp : ℂ) (ylmF : ℝ × ℝ × ℝ → ℂ) (b : Binning) :
    ((pa.boxsize0 ≠ pb.boxsize0 ∨ pa.boxsize1 ≠ pb.boxsize1
        ∨ pa.boxsize2 ≠ pb.boxsize2
        ∨ pa.ngrid0 ≠ pb.ngrid0 ∨ pa.ngrid1 ≠ pb.ngrid1
        ∨ pa.ngrid2 ≠ pb.ngrid2 ∨ nmesh pa ≠ nmesh pb) →
      ¬ if_fields_compatible ps pa pb
        ∧ compute_ylm_wgtd_2pt_stats_in_fourier ps pa pb fa fb snAmp ylmF b
            = Except.error
                "Input mesh fields have incompatible physical properties.")
    ∧ ((ps.boxsize0 = pa.boxsize0 ∧ ps.boxsize0 = pb.boxsize0
        ∧ ps.boxsize1 = pa.boxsize1 ∧ ps.boxsize1 = pb.boxsize1
        ∧ ps.boxsize2 = pa.boxsize2 ∧ ps.boxsize2 = pb.boxsize2
        ∧ ps.ngrid0 = pa.ngrid0 ∧ ps.ngrid0 = pb.ngrid0
        ∧ ps.ngrid1 = pa.ngrid1 ∧ ps.ngrid1 = pb.ngrid1
        ∧ ps.ngrid2 = pa.ngrid2 ∧ ps.ngrid2 = pb.ngrid2) →
      if_fields_compatible ps pa pb) := by
  constructor
  · intro hmis
    have hnc : ¬ if_fields_compatible ps pa pb := by
      intro hc
      obtain ⟨⟨hb0a, hb0b, hn0a, hn0b⟩, ⟨hb1a, hb1b, hn1a, hn1b⟩,
        ⟨hb2a, hb2b, hn2a, hn2b⟩, hma, hmb, _, _⟩ := hc
      rcases hmis with h | h | h | h | h | h | h
      · exact h (hb0a ▸ hb0b)
      · exact h (hb1a ▸ hb1b)
      · exact h (hb2a ▸ hb2b)
      · exact h (hn0a ▸ hn0b)
      · exact h (hn1a ▸ hn1b)
      · exact h (hn2a ▸ hn2b)
      · exact h (hma ▸ hmb)
    refine ⟨hnc, ?_⟩
    rw [compute_ylm_wgtd_2pt_stats_in_fourier, if_neg hnc]
  · rintro ⟨hb0a, hb0b, hb1a, hb1b, hb2a, hb2b,
      hn0a, hn0b, hn1a, hn1b, hn2a, hn2b⟩
    refine ⟨⟨hb0a, hb0b, hn0a, hn0b⟩, ⟨hb1a, hb1b, hn1a, hn1b⟩,
      ⟨hb2a, hb2b, hn2a, hn2b⟩, ?_, ?_, ?_, ?_⟩
    · rw [nmesh, nmesh, hn0a, hn1a, hn2a]
    · rw [nmesh, nmesh, hn0b, hn1b, hn2b]
    · rw [volume, volume, hb0b, hb1b, hb2b]
    · rw [volume, volume, hb0b, hb1b, hb2b]

/-- C6 witness: the mismatch branch at fields with different grid
resolutions, and the pass branch at identical parameters. -/
theorem C6_compatibility_check_witness :
    (¬ if_fields_compatible ⟨2, 2, 2, 1, 1, 1, "ngp", "false"⟩
        ⟨2, 2, 2, 1, 1, 1, "ngp", "false"⟩ ⟨4, 2, 2, 1, 1, 1, "ngp", "false"⟩
      ∧ compute_ylm_wgtd_2pt_stats_in_fourier
          ⟨2, 2, 2, 1, 1, 1, "ngp", "false"⟩
          ⟨2, 2, 2, 1, 1, 1, "ngp", "false"⟩ ⟨4, 2, 2, 1, 1, 1, "ngp", "false"⟩
          (fun _ => 0) (fun _ => 0) 0 (fun _ => 0) ⟨1, fun _ => 0, fun _ => 0⟩
        = Except.error
            "Input mesh fields have incompatible physical properties.")
    ∧ if_fields_compatible ⟨2, 2, 2, 1, 1, 1, "ngp", "false"⟩
        ⟨2, 2, 2, 1, 1, 1, "ngp", "false"⟩ ⟨2, 2, 2, 1, 1, 1, "ngp", "false"⟩ := by
  constructor
  · exact (C6_compatibility_check _ _ _ (fun _ => 0) (fun _ => 0) 0 (fun _ => 0)
      ⟨1, fun _ => 0, fun _ => 0⟩).1 (by right; right; right; left; decide)
  · exact (C6_compatibility_check ⟨2, 2, 2, 1, 1, 1, "ngp", "false"⟩ _ _
      (fun _ => 0) (fun _ => 0) 0 (fun _ => 0) ⟨1, fun _ => 0, fun _ => 0⟩).2
      ⟨rfl, rfl, rfl, rfl, rfl, rfl, rfl, rfl, rfl, rfl, rfl, rfl⟩

/-- C8: both binned-statistic computations complete normally on
compatible fields, and every final bin with zero contributing modes
(pairs) reports the nominal bin centre as its mean coordinate and exactly
zero as its statistic (and zero shot-noise sum in Fourier space). -/
theorem C8_empty_bins_fallback (ps pa pb : ParameterSet)
    [NeZero ps.ngrid0] [NeZero ps.ngrid1] [NeZero ps.ngrid2]
    (fa fb : ℤ → ℂ) (snAmp : ℂ) (ylmF : ℝ × ℝ × ℝ → ℂ) (b : Binning)
    (hcompat : if_fields_compatible ps pa pb) :
    (∃ S : TwoPtStatsFourier,
      compute_ylm_wgtd_2pt_stats_in_fourier ps pa pb fa fb snAmp ylmF b
          = Except.ok S
        ∧ ∀ ibin : ℕ, S.nmodes ibin = 0 →
            S.k ibin = b.bin_centres ibin ∧ S.pk ibin = 0 ∧ S.sn ibin = 0)
    ∧ (∃ T : TwoPtStatsConfig,
      compute_ylm_wgtd_2pt_stats_in_config ps pa pb fa fb snAmp ylmF b
          = Except.ok T
        ∧ ∀ ibin : ℕ, T.npairs ibin = 0 →
            T.r ibin = b.bin_centres ibin ∧ T.xi ibin = 0) := by
  constructor
  · refine ⟨_, by rw [compute_ylm_wgtd_2pt_stats_in_fourier, if_pos hcompat], ?_⟩
    intro ibin hzero
    simp only at hzero ⊢
    rw [if_neg (by simpa using hzero), if_neg (by simpa using hzero),
      if_neg (by simpa using hzero)]
    exact ⟨rfl, rfl, rfl⟩
  · refine ⟨_, by rw [compute_ylm_wgtd_2pt_stats_in_config, if_pos hcompat], ?_⟩
    intro ibin hzero
    simp only at hzero ⊢
    rw [if_neg (by simpa using hzero), if_neg (by simpa using hzero)]
    exact ⟨rfl, rfl⟩

/-- C8 witness: concrete compatible configuration. -/
theorem C8_empty_bins_fallback_witness :
    if_fields_compatible ⟨2, 2, 2, 1, 1, 1, "ngp", "false"⟩
        ⟨2, 2, 2, 1, 1, 1, "ngp", "false"⟩ ⟨2, 2, 2, 1, 1, 1, "ngp", "false"⟩
    ∧ ((∃ S : TwoPtStatsFourier,
        compute_ylm_wgtd_2pt_stats_in_fourier
            ⟨2, 2, 2, 1, 1, 1, "ngp", "false"⟩
            ⟨2, 2, 2, 1, 1, 1, "ngp", "false"⟩
            ⟨2, 2, 2, 1, 1, 1, "ngp", "false"⟩
            (fun _ => 0) (fun _ => 0) 0 (fun _ => 0)
            ⟨1, fun _ => 0, fun _ => 0⟩
            = Except.ok S
          ∧ ∀ ibin : ℕ, S.nmodes ibin = 0 →
              S.k ibin = (⟨1, fun _ => 0, fun _ => 0⟩ : Binning).bin_centres ibin
                ∧ S.pk ibin = 0 ∧ S.sn ibin = 0)
      ∧ (∃ T : TwoPtStatsConfig,
        compute_ylm_wgtd_2pt_stats_in_config
            ⟨2, 2, 2, 1, 1, 1, "ngp", "false"⟩
            ⟨2, 2, 2, 1, 1, 1, "ngp", "false"⟩
            ⟨2, 2, 2, 1, 1, 1, "ngp", "false"⟩
            (fun _ => 0) (fun _ => 0) 0 (fun _ => 0)
            ⟨1, fun _ => 0, fun _ => 0⟩
            = Except.ok T
          ∧ ∀ ibin : ℕ, T.npairs ibin = 0 →
              T.r ibin = (⟨1, fun _ => 0, fun _ => 0⟩ : Binning).bin_centres ibin
                ∧ T.xi ibin = 0)) := by
  have hcompat : if_fields_compatible ⟨2, 2, 2, 1, 1, 1, "ngp", "false"⟩
      ⟨2, 2, 2, 1, 1, 1, "ngp", "false"⟩ ⟨2, 2, 2, 1, 1, 1, "ngp", "false"⟩ :=
    ⟨⟨rfl, rfl, rfl, rfl⟩, ⟨rfl, rfl, rfl, rfl⟩, ⟨rfl, rfl, rfl, rfl⟩,
      rfl, rfl, rfl, rfl⟩
  exact ⟨hcompat, C8_empty_bins_fallback _ _ _ (fun _ => 0) (fun _ => 0) 0
    (fun _ => 0) ⟨1, fun _ => 0, fun _ => 0⟩ hcompat⟩

lemma dft3_backward_mul_const (n0 n1 n2 : ℕ)
    [NeZero n0] [NeZero n1] [NeZero n2]
    (f : ZMod n0 × ZMod n1 × ZMod n2 → ℂ) (c : ℂ)
    (y : ZMod n0 × ZMod n1 × ZMod n2) :
    dft3_backward n0 n1 n2 (fun x => f x * c) y
      = dft3_backward n0 n1 n2 f y * c := by
  unfold dft3_backward
  rw [Finset.sum_mul]
  apply Finset.sum_congr rfl
  intro x _
  ring

/-- C2: the forward spectral transform (multiply by the per-cell volume,
then unnormalised forward DFT) followed by the inverse transform (divide
by the total volume, then unnormalised backward DFT) reproduces the
original field exactly, in idealised arithmetic. -/
theorem C2_transform_roundtrip (p : ParameterSet)
    [NeZero p.ngrid0] [NeZero p.ngrid1] [NeZero p.ngrid2]
    (hvol : volume p ≠ 0)
    (f : ZMod p.ngrid0 × ZMod p.ngrid1 × ZMod p.ngrid2 → ℂ) :
    inv_fourier_transform p (fourier_transform p f) = f := by
  funext y
  rw [inv_fourier_transform]
  have hdiv : (fun m => fourier_transform p f m / ((volume p : ℝ) : ℂ))
      = fun m => fourier_transform p f m * (((volume p : ℝ) : ℂ))⁻¹ := by
    funext m
    rw [div_eq_mul_inv]
  rw [hdiv, dft3_backward_mul_const, fourier_transform, dft3_backward_forward]
  have hN : ((p.ngrid0 * p.ngrid1 * p.ngrid2 : ℕ) : ℂ) ≠ 0 := by
    have h0 : p.ngrid0 ≠ 0 := NeZero.ne _
    have h1 : p.ngrid1 ≠ 0 := NeZero.ne _
    have h2 : p.ngrid2 ≠ 0 := NeZero.ne _
    exact_mod_cast Nat.mul_ne_zero (Nat.mul_ne_zero h0 h1) h2
  have hV : ((volume p : ℝ) : ℂ) ≠ 0 := Complex.ofReal_ne_zero.mpr hvol
  have hvc : ((vol_cell p : ℝ) : ℂ)
      = ((volume p : ℝ) : ℂ) / ((p.ngrid0 * p.ngrid1 * p.ngrid2 : ℕ) : ℂ) := by
    rw [vol_cell, nmesh]
    push_cast
    ring
  rw [hvc]
  have hN0 : ((p.ngrid0 : ℕ) : ℂ) ≠ 0 := Nat.cast_ne_zero.mpr (NeZero.ne _)
  have hN1 : ((p.ngrid1 : ℕ) : ℂ) ≠ 0 := Nat.cast_ne_zero.mpr (NeZero.ne _)
  have hN2 : ((p.ngrid2 : ℕ) : ℂ) ≠ 0 := Nat.cast_ne_zero.mpr (NeZero.ne _)
  push_cast
  field_simp

/-- C2 witness: a concrete 1×1×1 unit-box configuration and a constant
field. -/
theorem C2_transform_roundtrip_witness :
    volume ⟨1, 1, 1, 1, 1, 1, "ngp", "false"⟩ ≠ 0
    ∧ inv_fourier_transform ⟨1, 1, 1, 1, 1, 1, "ngp", "false"⟩
        (fourier_transform ⟨1, 1, 1, 1, 1, 1, "ngp", "false"⟩ (fun _ => 37))
      = fun _ => 37 := by
  have hvol : volume ⟨1, 1, 1, 1, 1, 1, "ngp", "false"⟩ ≠ 0 := by
    rw [volume]
    norm_num
  exact ⟨hvol, C2_transform_roundtrip _ hvol (fun _ => 37)⟩

lemma ngp_axis_cells_at_gridpoint (n : ℕ) (L : ℝ) (g : ℤ)
    (hL : L ≠ 0) (hn : (n : ℝ) ≠ 0) (hg : 0 ≤ g) :
    ngp_axis_cells n L ((g : ℝ) * (L / (n : ℝ))) = [(g, 1)] := by
  have hloc : (g : ℝ) * (L / (n : ℝ)) / L * (n : ℝ) = (g : ℝ) := by
    field_simp
    ring
  simp only [ngp_axis_cells, hloc, cppTrunc_intCast_add_half g hg]

lemma assign_with_kernel_single (axis_cells : ℕ → ℝ → ℝ → List (ℤ × ℝ))
    (p : ParameterSet) (pos : ℝ × ℝ × ℝ) (w : ℂ) :
    assign_with_kernel axis_cells p [(pos, w)]
      = (mesh_contribs (axis_cells p.ngrid0 p.boxsize0 pos.1)
          (axis_cells p.ngrid1 p.boxsize1 pos.2.1)
          (axis_cells p.ngrid2 p.boxsize2 pos.2.2)).foldl
          (deposit_contrib p w) (fun _ => 0) :=
  rfl

lemma mesh_contribs_singletons (a b c : ℤ × ℝ) :
    mesh_contribs [a] [b] [c] = [((a.1, b.1, c.1), a.2 * b.2 * c.2)] :=
  rfl

/-- C1: with interlacing disabled and NGP selected, assigning a single
particle of combined weight 1 positioned exactly at in-range grid point
`(g0,g1,g2)` produces a field whose value is `1/vol_cell` at exactly that
cell and exactly 0 at every other cell. -/
theorem C1_ngp_single_particle_delta (p : ParameterSet) (g0 g1 g2 : ℤ)
    (hb0 : 0 < p.boxsize0) (hb1 : 0 < p.boxsize1) (hb2 : 0 < p.boxsize2)
    (hn0 : 0 < p.ngrid0) (hn1 : 0 < p.ngrid1) (hn2 : 0 < p.ngrid2)
    (ha : p.assignment = "ngp") (hint : p.interlace = "false")
    (hg0 : 0 ≤ g0 ∧ g0 < (p.ngrid0 : ℤ)) (hg1 : 0 ≤ g1 ∧ g1 < (p.ngrid1 : ℤ))
    (hg2 : 0 ≤ g2 ∧ g2 < (p.ngrid2 : ℤ)) :
    assign_weighted_field_to_mesh p
        [(((g0 : ℝ) * dr0 p, (g1 : ℝ) * dr1 p, (g2 : ℝ) * dr2 p), 1)]
      = Except.ok (assign_weighted_field_to_mesh_ngp p
          [(((g0 : ℝ) * dr0 p, (g1 : ℝ) * dr1 p, (g2 : ℝ) * dr2 p), 1)])
    ∧ ∀ i j k : ℤ,
        0 ≤ i ∧ i < (p.ngrid0 : ℤ) → 0 ≤ j ∧ j < (p.ngrid1 : ℤ) →
        0 ≤ k ∧ k < (p.ngrid2 : ℤ) →
        assign_weighted_field_to_mesh_ngp p
            [(((g0 : ℝ) * dr0 p, (g1 : ℝ) * dr1 p, (g2 : ℝ) * dr2 p), 1)]
            (get_grid_index p i j k)
          = if i = g0 ∧ j = g1 ∧ k = g2 then ((1 / vol_cell p : ℝ) : ℂ)
            else 0 := by
  have hn0r : ((p.ngrid0 : ℕ) : ℝ) ≠ 0 := by
    exact_mod_cast Nat.pos_iff_ne_zero.mp hn0
  have hn1r : ((p.ngrid1 : ℕ) : ℝ) ≠ 0 := by
    exact_mod_cast Nat.pos_iff_ne_zero.mp hn1
  have hn2r : ((p.ngrid2 : ℕ) : ℝ) ≠ 0 := by
    exact_mod_cast Nat.pos_iff_ne_zero.mp hn2
  have hc0 : ngp_axis_cells p.ngrid0 p.boxsize0 ((g0 : ℝ) * dr0 p)
      = [(g0, 1)] := by
    rw [show (g0 : ℝ) * dr0 p = (g0 : ℝ) * (p.boxsize0 / (p.ngrid0 : ℝ)) from
      by rw [dr0]]
    exact ngp_axis_cells_at_gridpoint _ _ _ (ne_of_gt hb0) hn0r hg0.1
  have hc1 : ngp_axis_cells p.ngrid1 p.boxsize1 ((g1 : ℝ) * dr1 p)
      = [(g1, 1)] := by
    rw [show (g1 : ℝ) * dr1 p = (g1 : ℝ) * (p.boxsize1 / (p.ngrid1 : ℝ)) from
      by rw [dr1]]
    exact ngp_axis_cells_at_gridpoint _ _ _ (ne_of_gt hb1) hn1r hg1.1
  have hc2 : ngp_axis_cells p.ngrid2 p.boxsize2 ((g2 : ℝ) * dr2 p)
      = [(g2, 1)] := by
    rw [show (g2 : ℝ) * dr2 p = (g2 : ℝ) * (p.boxsize2 / (p.ngrid2 : ℝ)) from
      by rw [dr2]]
    exact ngp_axis_cells_at_gridpoint _ _ _ (ne_of_gt hb2) hn2r hg2.1
  have hfield : assign_weighted_field_to_mesh_ngp p
      [(((g0 : ℝ) * dr0 p, (g1 : ℝ) * dr1 p, (g2 : ℝ) * dr2 p), 1)]
      = Function.update (fun _ => (0 : ℂ)) (get_grid_index p g0 g1 g2)
          ((1 / vol_cell p : ℝ) : ℂ) := by
    rw [assign_weighted_field_to_mesh_ngp, assign_with_kernel_single]
    simp only
    rw [hc0, hc1, hc2, mesh_contribs_singletons]
    simp only
    rw [List.foldl_cons, List.foldl_nil]
    have hbnd := get_grid_index_bounds (p := p) hg0 hg1 hg2
    simp only [deposit_contrib]
    rw [if_pos hbnd]
    norm_num
  refine ⟨by simp [assign_weighted_field_to_mesh, ha], ?_⟩
  intro i j k hi hj hk
  rw [hfield, Function.update_apply]
  have hiff : get_grid_index p i j k = get_grid_index p g0 g1 g2
      ↔ (i = g0 ∧ j = g1 ∧ k = g2) := by
    constructor
    · intro h
      exact get_grid_index_inj hi hj hk hg0 hg1 hg2 h
    · rintro ⟨rfl, rfl, rfl⟩
      rfl
  by_cases hcase : i = g0 ∧ j = g1 ∧ k = g2
  · rw [if_pos (hiff.mpr hcase), if_pos hcase]
  · rw [if_neg (fun hh => hcase (hiff.mp hh)), if_neg hcase]

/-- C1 witness: 4×4×4 unit box, particle at grid point `(1,2,3)`,
field value checked at the particle's cell and at the origin cell. -/
theorem C1_ngp_single_particle_delta_witness :
    assign_weighted_field_to_mesh_ngp ⟨4, 4, 4, 1, 1, 1, "ngp", "false"⟩
        [(((((1 : ℤ) : ℝ)) * dr0 ⟨4, 4, 4, 1, 1, 1, "ngp", "false"⟩,
            (((2 : ℤ) : ℝ)) * dr1 ⟨4, 4, 4, 1, 1, 1, "ngp", "false"⟩,
            (((3 : ℤ) : ℝ)) * dr2 ⟨4, 4, 4, 1, 1, 1, "ngp", "false"⟩), 1)]
        (get_grid_index ⟨4, 4, 4, 1, 1, 1, "ngp", "false"⟩ 1 2 3)
      = ((1 / vol_cell ⟨4, 4, 4, 1, 1, 1, "ngp", "false"⟩ : ℝ) : ℂ)
    ∧ assign_weighted_field_to_mesh_ngp ⟨4, 4, 4, 1, 1, 1, "ngp", "false"⟩
        [(((((1 : ℤ) : ℝ)) * dr0 ⟨4, 4, 4, 1, 1, 1, "ngp", "false"⟩,
            (((2 : ℤ) : ℝ)) * dr1 ⟨4, 4, 4, 1, 1, 1, "ngp", "false"⟩,
            (((3 : ℤ) : ℝ)) * dr2 ⟨4, 4, 4, 1, 1, 1, "ngp", "false"⟩), 1)]
        (get_grid_index ⟨4, 4, 4, 1, 1, 1, "ngp", "false"⟩ 0 0 0)
      = 0 := by
  have h := (C1_ngp_single_particle_delta ⟨4, 4, 4, 1, 1, 1, "ngp", "false"⟩
    1 2 3 (by norm_num) (by norm_num) (by norm_num) (by norm_num)
    (by norm_num) (by norm_num) rfl rfl (by norm_num) (by norm_num)
    (by norm_num)).2
  constructor
  · have h1 := h 1 2 3 (by norm_num) (by norm_num) (by norm_num)
    rw [if_pos ⟨rfl, rfl, rfl⟩] at h1
    exact h1
  · have h0 := h 0 0 0 (by norm_num) (by norm_num) (by norm_num)
    rw [if_neg (by norm_num)] at h0
    exact h0

lemma cppTrunc_zero : cppTrunc 0 = 0 := by
  refine cppTrunc_eq_of le_rfl ?_ ?_ <;> norm_num

lemma cppTrunc_three_halves : cppTrunc (3/2 : ℝ) = 1 := by
  refine cppTrunc_eq_of ?_ ?_ ?_ <;> norm_num

lemma cic_cells_zero : cic_axis_cells 2 2 0 = [(0, 1), (1, 0)] := by
  simp only [cic_axis_cells]
  norm_num [cppTrunc_zero]

lemma cic_cells_three_halves :
    cic_axis_cells 2 2 (3/2) = [(1, 1/2), (2, 1/2)] := by
  have harg : ((2 : ℕ) : ℝ) * (3/2) / 2 = 3/2 := by norm_num
  simp only [cic_axis_cells, harg, cppTrunc_three_halves]
  norm_num

lemma assign_cic_axis_bounded_single (p : ParameterSet) (pos : ℝ × ℝ × ℝ)
    (w : ℂ) :
    assign_cic_axis_bounded p [(pos, w)]
      = (mesh_contribs (cic_axis_cells p.ngrid0 p.boxsize0 pos.1)
          (cic_axis_cells p.ngrid1 p.boxsize1 pos.2.1)
          (cic_axis_cells p.ngrid2 p.boxsize2 pos.2.2)).foldl
          (deposit_contrib_axis_bounded p w) (fun _ => 0) :=
  rfl

lemma c5_field_eval :
    (mesh_contribs (cic_axis_cells 2 2 0) (cic_axis_cells 2 2 0)
        (cic_axis_cells 2 2 (3/2))).foldl
        (deposit_contrib ⟨2, 2, 2, 2, 2, 2, "cic", "false"⟩ 1) (fun _ => 0) 2
      = ((1/2 : ℝ) : ℂ) := by
  rw [cic_cells_zero, cic_cells_three_halves, mesh_contribs]
  simp only [List.flatMap_cons, List.flatMap_nil, List.map_cons, List.map_nil,
    List.append_nil, List.cons_append, List.nil_append]
  simp only [List.foldl_cons, List.foldl_nil]
  norm_num [deposit_contrib, get_grid_index, nmesh, vol_cell, volume,
    Function.update_apply]

lemma c5_field_eval_bounded :
    (mesh_contribs (cic_axis_cells 2 2 0) (cic_axis_cells 2 2 0)
        (cic_axis_cells 2 2 (3/2))).foldl
        (deposit_contrib_axis_bounded ⟨2, 2, 2, 2, 2, 2, "cic", "false"⟩ 1)
        (fun _ => 0) 2
      = 0 := by
  rw [cic_cells_zero, cic_cells_three_halves, mesh_contribs]
  simp only [List.flatMap_cons, List.flatMap_nil, List.map_cons, List.map_nil,
    List.append_nil, List.cons_append, List.nil_append]
  simp only [List.foldl_cons, List.foldl_nil]
  norm_num [deposit_contrib_axis_bounded, get_grid_index, nmesh, vol_cell,
    volume, Function.update_apply]

/-- C5 counterexample: in a 2×2×2 grid of box 2, the CIC assignment of a
single unit-weight particle at `(0, 0, 1.5)` generates a contribution
targeting cell `(0,0,2)`, whose axis-2 coordinate 2 is outside `[0,2)`.
The source's flattened-index guard does NOT drop it: the flattened index
of `(0,0,2)` is 2, inside `[0, 8)`, so the contribution is added to
flattened cell 2 (which is cell `(0,1,0)`), whereas per-axis dropping (the
claim's reading) would leave that cell at zero. -/
theorem C5_counterexample_axis_aliasing :
    get_grid_index ⟨2, 2, 2, 2, 2, 2, "cic", "false"⟩ 0 0 2 = 2
    ∧ ¬(0 ≤ (2 : ℤ)
        ∧ (2 : ℤ) < ((⟨2, 2, 2, 2, 2, 2, "cic", "false"⟩
            : ParameterSet).ngrid2 : ℤ))
    ∧ assign_weighted_field_to_mesh_cic ⟨2, 2, 2, 2, 2, 2, "cic", "false"⟩
        [((0, 0, 3/2), 1)] 2 = ((1/2 : ℝ) : ℂ)
    ∧ assign_cic_axis_bounded ⟨2, 2, 2, 2, 2, 2, "cic", "false"⟩
        [((0, 0, 3/2), 1)] 2 = 0
    ∧ ((1/2 : ℝ) : ℂ) ≠ 0 := by
  refine ⟨by norm_num [get_grid_index], by norm_num, ?_, ?_, by norm_num⟩
  · rw [assign_weighted_field_to_mesh_cic, assign_with_kernel_single]
    exact c5_field_eval
  · rw [assign_cic_axis_bounded_single]
    exact c5_field_eval_bounded

/-- C5 (amended): the guard in every accumulation step is on the FLATTENED
row-major index, not on per-axis coordinates: a contribution whose
flattened index falls outside `[0, nmesh)` leaves the field unchanged
(silently, with no error), while any contribution whose flattened index is
inside that range is added at that flattened cell even if some axis
coordinate is out of `[0, resolution)`. -/
theorem C5_flattened_bounds_dropping (p : ParameterSet) (w : ℂ) (f : ℤ → ℂ)
    (c : (ℤ × ℤ × ℤ) × ℝ)
    (hout : ¬(0 ≤ get_grid_index p c.1.1 c.1.2.1 c.1.2.2
        ∧ get_grid_index p c.1.1 c.1.2.1 c.1.2.2 < (nmesh p : ℤ))) :
    deposit_contrib p w f c = f := by
  rw [deposit_contrib]
  exact if_neg hout

/-- C5 witness: the contribution of the counterexample particle that
targets `(1,1,2)` has flattened index 8 ∉ `[0,8)` and is dropped. -/
theorem C5_flattened_bounds_dropping_witness :
    ¬(0 ≤ get_grid_index ⟨2, 2, 2, 2, 2, 2, "cic", "false"⟩ 1 1 2
        ∧ get_grid_index ⟨2, 2, 2, 2, 2, 2, "cic", "false"⟩ 1 1 2
          < (nmesh ⟨2, 2, 2, 2, 2, 2, "cic", "false"⟩ : ℤ))
    ∧ deposit_contrib ⟨2, 2, 2, 2, 2, 2, "cic", "false"⟩ 1 (fun _ => 0)
        ((1, 1, 2), 1/2) = fun _ => 0 := by
  have hout : ¬(0 ≤ get_grid_index ⟨2, 2, 2, 2, 2, 2, "cic", "false"⟩ 1 1 2
      ∧ get_grid_index ⟨2, 2, 2, 2, 2, 2, "cic", "false"⟩ 1 1 2
        < (nmesh ⟨2, 2, 2, 2, 2, 2, "cic", "false"⟩ : ℤ)) := by
    norm_num [get_grid_index, nmesh]
  exact ⟨hout, C5_flattened_bounds_dropping _ 1 (fun _ => 0) ((1, 1, 2), 1/2)
    hout⟩

lemma edges_mono_of (edges : ℕ → ℝ) (B : ℕ)
    (hmono : ∀ i, i < B → edges i < edges (i + 1)) :
    ∀ a b, a ≤ b → b ≤ B → edges a ≤ edges b := by
  intro a b hab hbB
  induction b with
  | zero =>
    have : a = 0 := Nat.le_zero.mp hab
    rw [this]
  | succ n ih =>
    rcases Nat.lt_or_ge a (n + 1) with hlt | hge
    · have h1 : a ≤ n := Nat.lt_succ_iff.mp hlt
      have h2 : n ≤ B := le_trans (Nat.le_succ n) hbB
      exact le_trans (ih h1 h2)
        (le_of_lt (hmono n (Nat.lt_of_lt_of_le (Nat.lt_succ_self n) hbB)))
    · have : a = n + 1 := le_antisymm hab hge
      rw [this]

lemma exists_cover (edges : ℕ → ℝ) (r : ℝ) :
    ∀ B : ℕ, edges 0 < r → r ≤ edges B →
      ∃ ib, ib < B ∧ edges ib < r ∧ r ≤ edges (ib + 1) := by
  intro B
  induction B with
  | zero =>
    intro h1 h2
    exact absurd (lt_of_lt_of_le h1 h2) (lt_irrefl _)
  | succ n ih =>
    intro h1 h2
    by_cases hr : r ≤ edges n
    · obtain ⟨ib, hlt, h⟩ := ih h1 hr
      exact ⟨ib, Nat.lt_succ_of_lt hlt, h⟩
    · push_neg at hr
      exact ⟨n, Nat.lt_succ_self n, hr, h2⟩

lemma fine_idx_nonneg (d mag : ℝ) (hd : 0 < d) (hmag : 0 ≤ mag) :
    0 ≤ fine_idx d mag := by
  rw [fine_idx, cppTrunc_of_nonneg (by positivity)]
  exact Int.floor_nonneg.mpr (by positivity)

lemma fine_idx_le (d mag : ℝ) (hd : 0 < d) (hmag : 0 ≤ mag) :
    (fine_idx d mag : ℝ) ≤ mag / d + 1/2 := by
  rw [fine_idx, cppTrunc_of_nonneg (by positivity)]
  exact Int.floor_le _

/-- The two-stage fine-then-coarse counting sums to the total number of
grid cells, provided every mode's fine index is below the table length and
every (nonempty) fine-bin representative `i · d` lies inside the
caller's edge range. -/
lemma binned_count_total (p : ParameterSet) (mag : ℕ × ℕ × ℕ → ℝ) (d : ℝ)
    (b : Binning) (hd : 0 < d) (hmag : ∀ m ∈ gridTriples p, 0 ≤ mag m)
    (hmono : ∀ i, i < b.num_bins → b.bin_edges i < b.bin_edges (i + 1))
    (hfine : ∀ m ∈ gridTriples p, fine_idx d (mag m) < (n_sample : ℤ))
    (hcover : ∀ m ∈ gridTriples p,
      b.bin_edges 0 < (fine_idx d (mag m) : ℝ) * d
        ∧ (fine_idx d (mag m) : ℝ) * d ≤ b.bin_edges b.num_bins) :
    ∑ ibin ∈ Finset.range b.num_bins, binned_count p mag d b ibin
      = nmesh p := by
  have hnn : ∀ m ∈ gridTriples p, 0 ≤ fine_idx d (mag m) := by
    intro m hm
    exact fine_idx_nonneg d (mag m) hd (hmag m hm)
  have h1 : ∑ ibin ∈ Finset.range b.num_bins, binned_count p mag d b ibin
      = ∑ i ∈ Finset.range n_sample, fine_count p mag d i *
          ((Finset.range b.num_bins).filter
            (fun ibin => b.bin_edges ibin < (i : ℝ) * d
              ∧ (i : ℝ) * d ≤ b.bin_edges (ibin + 1))).card := by
    unfold binned_count
    rw [Finset.sum_comm]
    apply Finset.sum_congr rfl
    intro i _
    rw [Finset.card_filter, Finset.mul_sum]
    apply Finset.sum_congr rfl
    intro ibin _
    by_cases hc : b.bin_edges ibin < (i : ℝ) * d
        ∧ (i : ℝ) * d ≤ b.bin_edges (ibin + 1)
    · rw [if_pos hc, if_pos hc, mul_one]
    · rw [if_neg hc, if_neg hc, mul_zero]
  have h2 : ∀ i ∈ Finset.range n_sample, fine_count p mag d i ≠ 0 →
      ((Finset.range b.num_bins).filter
        (fun ibin => b.bin_edges ibin < (i : ℝ) * d
          ∧ (i : ℝ) * d ≤ b.bin_edges (ibin + 1))).card = 1 := by
    intro i _ hne
    have hpos : 0 < ((gridTriples p).filter
        (fun m => fine_idx d (mag m) = (i : ℤ))).card :=
      Nat.pos_of_ne_zero hne
    obtain ⟨m, hm⟩ := Finset.card_pos.mp hpos
    rw [Finset.mem_filter] at hm
    obtain ⟨hmem, hidx⟩ := hm
    have hcast : (fine_idx d (mag m) : ℝ) = (i : ℝ) := by
      exact_mod_cast congrArg (fun z : ℤ => (z : ℝ)) hidx
    have hc := hcover m hmem
    rw [hcast] at hc
    obtain ⟨ib, hibB, hlow, hhigh⟩ :=
      exists_cover b.bin_edges ((i : ℝ) * d) b.num_bins hc.1 hc.2
    rw [Finset.card_eq_one]
    refine ⟨ib, ?_⟩
    ext j
    simp only [Finset.mem_filter, Finset.mem_range, Finset.mem_singleton]
    constructor
    · rintro ⟨hjB, hj1, hj2⟩
      by_contra hne2
      rcases lt_or_gt_of_ne hne2 with hlt | hgt
      · have hle : b.bin_edges (j + 1) ≤ b.bin_edges ib :=
          edges_mono_of b.bin_edges b.num_bins hmono (j + 1) ib hlt
            (le_of_lt hibB)
        linarith
      · have hle : b.bin_edges (ib + 1) ≤ b.bin_edges j :=
          edges_mono_of b.bin_edges b.num_bins hmono (ib + 1) j hgt
            (le_of_lt hjB)
        linarith
    · rintro rfl
      exact ⟨hibB, hlow, hhigh⟩
  have h3 : ∑ i ∈ Finset.range n_sample, fine_count p mag d i *
      ((Finset.range b.num_bins).filter
        (fun ibin => b.bin_edges ibin < (i : ℝ) * d
          ∧ (i : ℝ) * d ≤ b.bin_edges (ibin + 1))).card
      = ∑ i ∈ Finset.range n_sample, fine_count p mag d i := by
    apply Finset.sum_congr rfl
    intro i hi
    by_cases hz : fine_count p mag d i = 0
    · rw [hz, zero_mul]
    · rw [h2 i hi hz, mul_one]
  have h4 : ∑ i ∈ Finset.range n_sample, fine_count p mag d i
      = (gridTriples p).card := by
    unfold fine_count
    have hfib : (gridTriples p).card
        = ∑ i ∈ Finset.range n_sample,
            ((gridTriples p).filter
              (fun m => (fine_idx d (mag m)).toNat = i)).card :=
      Finset.card_eq_sum_card_fiberwise (fun m hm => by
        rw [Finset.mem_range]
        have h0 := hnn m hm
        have hlt := hfine m hm
        omega)
    rw [hfib]
    apply Finset.sum_congr rfl
    intro i _
    have hfilter : ((gridTriples p).filter
          (fun m => fine_idx d (mag m) = (i : ℤ)))
        = ((gridTriples p).filter
          (fun m => (fine_idx d (mag m)).toNat = i)) := by
      apply Finset.filter_congr
      intro m hm
      have h0 := hnn m hm
      omega
    rw [hfilter]
  rw [h1, h3, h4, card_gridTriples]

/-- C4 (amended): after the Fourier-space (configuration-space) binned
statistic, the sum of `nmodes` (`npairs`) over all final bins equals the
total number of grid cells, PROVIDED the strictly increasing edges span
the fine-bin representatives `round(mag/Δ)·Δ` of all grid-mode magnitudes
(rather than the magnitudes themselves) and every magnitude rounds to a
fine index below the table length `100000`. -/
theorem C4_bin_counts_sum_to_ncells (p : ParameterSet) (b : Binning)
    (hmono : ∀ i, i < b.num_bins → b.bin_edges i < b.bin_edges (i + 1)) :
    ((∀ m ∈ gridTriples p,
        fine_idx dk_sample (kmag p m) < (n_sample : ℤ)
          ∧ b.bin_edges 0 < (fine_idx dk_sample (kmag p m) : ℝ) * dk_sample
          ∧ (fine_idx dk_sample (kmag p m) : ℝ) * dk_sample
              ≤ b.bin_edges b.num_bins) →
      ∑ ibin ∈ Finset.range b.num_bins, nmodes_binned p p b ibin = nmesh p)
    ∧ ((∀ m ∈ gridTriples p,
        fine_idx dr_sample (rmag p m) < (n_sample : ℤ)
          ∧ b.bin_edges 0 < (fine_idx dr_sample (rmag p m) : ℝ) * dr_sample
          ∧ (fine_idx dr_sample (rmag p m) : ℝ) * dr_sample
              ≤ b.bin_edges b.num_bins) →
      ∑ ibin ∈ Finset.range b.num_bins, npairs_binned p p b ibin
        = nmesh p) := by
  constructor
  · intro hall
    apply binned_count_total p (kmag p) dk_sample b
      (by rw [dk_sample]; norm_num)
      (fun m _ => Real.sqrt_nonneg _) hmono
      (fun m hm => (hall m hm).1)
      (fun m hm => ⟨(hall m hm).2.1, (hall m hm).2.2⟩)
  · intro hall
    apply binned_count_total p (rmag p) dr_sample b
      (by rw [dr_sample]; norm_num)
      (fun m _ => Real.sqrt_nonneg _) hmono
      (fun m hm => (hall m hm).1)
      (fun m hm => ⟨(hall m hm).2.1, (hall m hm).2.2⟩)

lemma rep_le (d mag : ℝ) (hd : 0 < d) (hmag : 0 ≤ mag) :
    (fine_idx d mag : ℝ) * d ≤ mag + d / 2 := by
  have h := fine_idx_le d mag hd hmag
  have h2 : (fine_idx d mag : ℝ) * d ≤ (mag / d + 1/2) * d :=
    mul_le_mul_of_nonneg_right h (le_of_lt hd)
  have h3 : (mag / d + 1/2) * d = mag + d / 2 := by
    rw [add_mul, div_mul_cancel₀ _ (ne_of_gt hd)]
    ring
  linarith

lemma rep_nonneg (d mag : ℝ) (hd : 0 < d) (hmag : 0 ≤ mag) :
    0 ≤ (fine_idx d mag : ℝ) * d :=
  mul_nonneg (by exact_mod_cast fine_idx_nonneg d mag hd hmag) (le_of_lt hd)

lemma fine_idx_lt_of (d mag : ℝ) (hd : 0 < d) (hmag : 0 ≤ mag)
    (h : mag / d + 1/2 < ((n_sample : ℕ) : ℝ)) :
    fine_idx d mag < (n_sample : ℤ) := by
  have h1 := fine_idx_le d mag hd hmag
  exact_mod_cast lt_of_le_of_lt h1 h

/-- C4 witness: a 1×1×1 grid in a `2π` box with edges `(-1, 100]`: the
single mode's fine representatives lie in range, and both count sums equal
the total cell count 1. -/
theorem C4_bin_counts_sum_to_ncells_witness :
    (∀ i, i < (⟨1, fun i => if i = 0 then (-1 : ℝ) else 100,
        fun _ => 0⟩ : Binning).num_bins →
      (⟨1, fun i => if i = 0 then (-1 : ℝ) else 100,
        fun _ => 0⟩ : Binning).bin_edges i
        < (⟨1, fun i => if i = 0 then (-1 : ℝ) else 100,
            fun _ => 0⟩ : Binning).bin_edges (i + 1))
    ∧ ∑ ibin ∈ Finset.range (⟨1, fun i => if i = 0 then (-1 : ℝ) else 100,
          fun _ => 0⟩ : Binning).num_bins,
        nmodes_binned
          ⟨1, 1, 1, 2 * Real.pi, 2 * Real.pi, 2 * Real.pi, "ngp", "false"⟩
          ⟨1, 1, 1, 2 * Real.pi, 2 * Real.pi, 2 * Real.pi, "ngp", "false"⟩
          ⟨1, fun i => if i = 0 then (-1 : ℝ) else 100, fun _ => 0⟩ ibin
      = nmesh ⟨1, 1, 1, 2 * Real.pi, 2 * Real.pi, 2 * Real.pi, "ngp", "false"⟩
    ∧ ∑ ibin ∈ Finset.range (⟨1, fun i => if i = 0 then (-1 : ℝ) else 100,
          fun _ => 0⟩ : Binning).num_bins,
        npairs_binned
          ⟨1, 1, 1, 2 * Real.pi, 2 * Real.pi, 2 * Real.pi, "ngp", "false"⟩
          ⟨1, 1, 1, 2 * Real.pi, 2 * Real.pi, 2 * Real.pi, "ngp", "false"⟩
          ⟨1, fun i => if i = 0 then (-1 : ℝ) else 100, fun _ => 0⟩ ibin
      = nmesh ⟨1, 1, 1, 2 * Real.pi, 2 * Real.pi, 2 * Real.pi,
          "ngp", "false"⟩ := by
  have hmono : ∀ i, i < (⟨1, fun i => if i = 0 then (-1 : ℝ) else 100,
      fun _ => 0⟩ : Binning).num_bins →
      (⟨1, fun i => if i = 0 then (-1 : ℝ) else 100,
        fun _ => 0⟩ : Binning).bin_edges i
        < (⟨1, fun i => if i = 0 then (-1 : ℝ) else 100,
            fun _ => 0⟩ : Binning).bin_edges (i + 1) := by
    intro i hi
    have hb : (⟨1, fun i => if i = 0 then (-1 : ℝ) else 100,
        fun _ => 0⟩ : Binning).num_bins = 1 := rfl
    rw [hb] at hi
    have : i = 0 := by omega
    subst this
    norm_num
  have hdk : dk0 ⟨1, 1, 1, 2 * Real.pi, 2 * Real.pi, 2 * Real.pi,
      "ngp", "false"⟩ = 1 := by
    rw [dk0]
    exact div_self (by positivity)
  have hdr : dr0 ⟨1, 1, 1, 2 * Real.pi, 2 * Real.pi, 2 * Real.pi,
      "ngp", "false"⟩ = 2 * Real.pi := by
    rw [dr0]
    norm_num
  have hdk1 : dk1 ⟨1, 1, 1, 2 * Real.pi, 2 * Real.pi, 2 * Real.pi,
      "ngp", "false"⟩ = 1 := by
    rw [dk1]
    exact div_self (by positivity)
  have hdk2 : dk2 ⟨1, 1, 1, 2 * Real.pi, 2 * Real.pi, 2 * Real.pi,
      "ngp", "false"⟩ = 1 := by
    rw [dk2]
    exact div_self (by positivity)
  have hdr1 : dr1 ⟨1, 1, 1, 2 * Real.pi, 2 * Real.pi, 2 * Real.pi,
      "ngp", "false"⟩ = 2 * Real.pi := by
    rw [dr1]
    norm_num
  have hdr2 : dr2 ⟨1, 1, 1, 2 * Real.pi, 2 * Real.pi, 2 * Real.pi,
      "ngp", "false"⟩ = 2 * Real.pi := by
    rw [dr2]
    norm_num
  have hkmag : kmag ⟨1, 1, 1, 2 * Real.pi, 2 * Real.pi, 2 * Real.pi,
      "ngp", "false"⟩ (0, 0, 0) = Real.sqrt 3 := by
    rw [kmag, get_grid_wavevector]
    norm_num [hdk, hdk1, hdk2, get_vec3d_magnitude]
  have hrmag : rmag ⟨1, 1, 1, 2 * Real.pi, 2 * Real.pi, 2 * Real.pi,
      "ngp", "false"⟩ (0, 0, 0) = Real.sqrt (12 * Real.pi ^ 2) := by
    have hpv : get_grid_pos_vector ⟨1, 1, 1, 2 * Real.pi, 2 * Real.pi,
        2 * Real.pi, "ngp", "false"⟩ 0 0 0
        = (-(2 * Real.pi), -(2 * Real.pi), -(2 * Real.pi)) := by
      rw [get_grid_pos_vector]
      norm_num [hdr, hdr1, hdr2]
    rw [rmag, hpv, get_vec3d_magnitude]
    congr 1
    ring
  have hk_le : Real.sqrt 3 ≤ 2 := by
    have h4 : Real.sqrt 4 = 2 := by
      rw [show (4 : ℝ) = 2 ^ 2 by norm_num]
      exact Real.sqrt_sq (by norm_num)
    calc Real.sqrt 3 ≤ Real.sqrt 4 := Real.sqrt_le_sqrt (by norm_num)
    _ = 2 := h4
  have hr_le : Real.sqrt (12 * Real.pi ^ 2) ≤ 14 := by
    have hpi : Real.pi ≤ 4 := by linarith [Real.pi_le_four]
    have h12 : 12 * Real.pi ^ 2 ≤ 196 := by nlinarith [Real.pi_pos]
    have h196 : Real.sqrt 196 = 14 := by
      rw [show (196 : ℝ) = 14 ^ 2 by norm_num]
      exact Real.sqrt_sq (by norm_num)
    calc Real.sqrt (12 * Real.pi ^ 2) ≤ Real.sqrt 196 := Real.sqrt_le_sqrt h12
    _ = 14 := h196
  have hmem : ∀ m ∈ gridTriples ⟨1, 1, 1, 2 * Real.pi, 2 * Real.pi,
      2 * Real.pi, "ngp", "false"⟩, m = ((0, 0, 0) : ℕ × ℕ × ℕ) := by
    intro m hm
    rw [mem_gridTriples] at hm
    rcases m with ⟨a, b, c⟩
    have hn : (⟨1, 1, 1, 2 * Real.pi, 2 * Real.pi, 2 * Real.pi,
        "ngp", "false"⟩ : ParameterSet).ngrid0 = 1 ∧
        (⟨1, 1, 1, 2 * Real.pi, 2 * Real.pi, 2 * Real.pi,
          "ngp", "false"⟩ : ParameterSet).ngrid1 = 1 ∧
        (⟨1, 1, 1, 2 * Real.pi, 2 * Real.pi, 2 * Real.pi,
          "ngp", "false"⟩ : ParameterSet).ngrid2 = 1 := ⟨rfl, rfl, rfl⟩
    rw [hn.1, hn.2.1, hn.2.2] at hm
    have h1 : a < 1 := hm.1
    have h2 : b < 1 := hm.2.1
    have h3 : c < 1 := hm.2.2
    have ha : a = 0 := by omega
    have hb : b = 0 := by omega
    have hc : c = 0 := by omega
    rw [ha, hb, hc]
  have hypK : ∀ m ∈ gridTriples ⟨1, 1, 1, 2 * Real.pi, 2 * Real.pi,
      2 * Real.pi, "ngp", "false"⟩,
      fine_idx dk_sample (kmag ⟨1, 1, 1, 2 * Real.pi, 2 * Real.pi,
          2 * Real.pi, "ngp", "false"⟩ m) < (n_sample : ℤ)
        ∧ (⟨1, fun i => if i = 0 then (-1 : ℝ) else 100,
            fun _ => 0⟩ : Binning).bin_edges 0
          < (fine_idx dk_sample (kmag ⟨1, 1, 1, 2 * Real.pi, 2 * Real.pi,
              2 * Real.pi, "ngp", "false"⟩ m) : ℝ) * dk_sample
        ∧ (fine_idx dk_sample (kmag ⟨1, 1, 1, 2 * Real.pi, 2 * Real.pi,
              2 * Real.pi, "ngp", "false"⟩ m) : ℝ) * dk_sample
          ≤ (⟨1, fun i => if i = 0 then (-1 : ℝ) else 100,
              fun _ => 0⟩ : Binning).bin_edges
              (⟨1, fun i => if i = 0 then (-1 : ℝ) else 100,
                fun _ => 0⟩ : Binning).num_bins := by
    intro m hm
    rw [hmem m hm, hkmag]
    have hd : (0 : ℝ) < dk_sample := by rw [dk_sample]; norm_num
    have hs3 : (0 : ℝ) ≤ Real.sqrt 3 := Real.sqrt_nonneg 3
    refine ⟨?_, ?_, ?_⟩
    · apply fine_idx_lt_of _ _ hd hs3
      rw [dk_sample, n_sample]
      have hx : Real.sqrt 3 / (1 / 10000 : ℝ) = Real.sqrt 3 * 10000 := by
        field_simp
      rw [hx]
      push_cast
      nlinarith
    · have he0 : (⟨1, fun i => if i = 0 then (-1 : ℝ) else 100,
          fun _ => 0⟩ : Binning).bin_edges 0 = -1 := rfl
      rw [he0]
      linarith [rep_nonneg dk_sample (Real.sqrt 3) hd hs3]
    · have he1 : (⟨1, fun i => if i = 0 then (-1 : ℝ) else 100,
          fun _ => 0⟩ : Binning).bin_edges
          (⟨1, fun i => if i = 0 then (-1 : ℝ) else 100,
            fun _ => 0⟩ : Binning).num_bins = 100 := rfl
      rw [he1]
      have hb := rep_le dk_sample (Real.sqrt 3) hd hs3
      have hdkv : dk_sample = (1/10000 : ℝ) := rfl
      linarith [hk_le]
  have hypR : ∀ m ∈ gridTriples ⟨1, 1, 1, 2 * Real.pi, 2 * Real.pi,
      2 * Real.pi, "ngp", "false"⟩,
      fine_idx dr_sample (rmag ⟨1, 1, 1, 2 * Real.pi, 2 * Real.pi,
          2 * Real.pi, "ngp", "false"⟩ m) < (n_sample : ℤ)
        ∧ (⟨1, fun i => if i = 0 then (-1 : ℝ) else 100,
            fun _ => 0⟩ : Binning).bin_edges 0
          < (fine_idx dr_sample (rmag ⟨1, 1, 1, 2 * Real.pi, 2 * Real.pi,
              2 * Real.pi, "ngp", "false"⟩ m) : ℝ) * dr_sample
        ∧ (fine_idx dr_sample (rmag ⟨1, 1, 1, 2 * Real.pi, 2 * Real.pi,
              2 * Real.pi, "ngp", "false"⟩ m) : ℝ) * dr_sample
          ≤ (⟨1, fun i => if i = 0 then (-1 : ℝ) else 100,
              fun _ => 0⟩ : Binning).bin_edges
              (⟨1, fun i => if i = 0 then (-1 : ℝ) else 100,
                fun _ => 0⟩ : Binning).num_bins := by
    intro m hm
    rw [hmem m hm, hrmag]
    have hd : (0 : ℝ) < dr_sample := by rw [dr_sample]; norm_num
    have hsr : (0 : ℝ) ≤ Real.sqrt (12 * Real.pi ^ 2) := Real.sqrt_nonneg _
    refine ⟨?_, ?_, ?_⟩
    · apply fine_idx_lt_of _ _ hd hsr
      rw [dr_sample, n_sample]
      push_cast
      nlinarith
    · have he0 : (⟨1, fun i => if i = 0 then (-1 : ℝ) else 100,
          fun _ => 0⟩ : Binning).bin_edges 0 = -1 := rfl
      rw [he0]
      linarith [rep_nonneg dr_sample (Real.sqrt (12 * Real.pi ^ 2)) hd hsr]
    · have he1 : (⟨1, fun i => if i = 0 then (-1 : ℝ) else 100,
          fun _ => 0⟩ : Binning).bin_edges
          (⟨1, fun i => if i = 0 then (-1 : ℝ) else 100,
            fun _ => 0⟩ : Binning).num_bins = 100 := rfl
      rw [he1]
      have hb := rep_le dr_sample (Real.sqrt (12 * Real.pi ^ 2)) hd hsr
      have hdrv : dr_sample = (1/2 : ℝ) := rfl
      linarith [hr_le]
  exact ⟨hmono,
    (C4_bin_counts_sum_to_ncells _ _ hmono).1 hypK,
    (C4_bin_counts_sum_to_ncells _ _ hmono).2 hypR⟩

/-- Concrete configuration for the C4 counterexample: a 2×1×1 grid whose
axis-0 fundamental wavenumber is exactly `6·10⁻⁵` and whose axis-1/2
fundamental wavenumbers are `2·10⁻⁹`. -/
noncomputable def p4ce : ParameterSet :=
  ⟨2, 1, 1, Real.pi * 100000 / 3, Real.pi * 1000000000,
    Real.pi * 1000000000, "ngp", "false"⟩

/-- Single coarse bin `(-1, 7·10⁻⁵]` for the C4 counterexample. -/
noncomputable def b4ce : Binning :=
  ⟨1, fun i => if i = 0 then (-1 : ℝ) else 7/100000, fun _ => 0⟩

lemma p4ce_dk0 : dk0 p4ce = 3/50000 := by
  rw [dk0]
  show 2 * Real.pi / (Real.pi * 100000 / 3) = 3/50000
  have hpi := Real.pi_ne_zero
  field_simp
  ring

lemma p4ce_dk1 : dk1 p4ce = 1/500000000 := by
  rw [dk1]
  show 2 * Real.pi / (Real.pi * 1000000000) = 1/500000000
  have hpi := Real.pi_ne_zero
  field_simp
  ring

lemma p4ce_dk2 : dk2 p4ce = 1/500000000 := by
  rw [dk2]
  show 2 * Real.pi / (Real.pi * 1000000000) = 1/500000000
  have hpi := Real.pi_ne_zero
  field_simp
  ring

lemma p4ce_kmag0 :
    kmag p4ce (0, 0, 0) = Real.sqrt (1/125000000000000000) := by
  have hkv : get_grid_wavevector p4ce 0 0 0
      = (0, -(1/500000000), -(1/500000000)) := by
    rw [get_grid_wavevector]
    have h0 : p4ce.ngrid0 = 2 := rfl
    have h1 : p4ce.ngrid1 = 1 := rfl
    have h2 : p4ce.ngrid2 = 1 := rfl
    rw [h0, h1, h2, p4ce_dk0, p4ce_dk1, p4ce_dk2]
    norm_num
  rw [kmag, hkv, get_vec3d_magnitude]
  congr 1
  norm_num

lemma p4ce_kmag1 :
    kmag p4ce (1, 0, 0)
      = Real.sqrt (450000001/125000000000000000) := by
  have hkv : get_grid_wavevector p4ce 1 0 0
      = (-(3/50000), -(1/500000000), -(1/500000000)) := by
    rw [get_grid_wavevector]
    have h0 : p4ce.ngrid0 = 2 := rfl
    have h1 : p4ce.ngrid1 = 1 := rfl
    have h2 : p4ce.ngrid2 = 1 := rfl
    rw [h0, h1, h2, p4ce_dk0, p4ce_dk1, p4ce_dk2]
    norm_num
  rw [kmag, hkv, get_vec3d_magnitude]
  congr 1
  norm_num

lemma p4ce_fidx0 : fine_idx dk_sample (kmag p4ce (0, 0, 0)) = 0 := by
  rw [p4ce_kmag0, fine_idx, dk_sample]
  have hs : Real.sqrt (1/125000000000000000) < 1/20000 := by
    have h := Real.sqrt_lt_sqrt (by norm_num : (0:ℝ) ≤ 1/125000000000000000)
      (by norm_num : (1/125000000000000000 : ℝ) < (1/20000)^2)
    rwa [Real.sqrt_sq (by norm_num : (0:ℝ) ≤ 1/20000)] at h
  have hnn : (0:ℝ) ≤ Real.sqrt (1/125000000000000000) := Real.sqrt_nonneg _
  have hdiv : Real.sqrt (1/125000000000000000) / (1/10000 : ℝ)
      = Real.sqrt (1/125000000000000000) * 10000 := by
    field_simp
  apply cppTrunc_eq_of
  · rw [hdiv]; positivity
  · rw [hdiv]; push_cast; positivity
  · rw [hdiv]; push_cast; nlinarith

lemma p4ce_fidx1 : fine_idx dk_sample (kmag p4ce (1, 0, 0)) = 1 := by
  rw [p4ce_kmag1, fine_idx, dk_sample]
  have hlow : (1/20000 : ℝ) ≤ Real.sqrt (450000001/125000000000000000) := by
    have h := Real.sqrt_le_sqrt
      (by norm_num : ((1/20000 : ℝ))^2 ≤ 450000001/125000000000000000)
    rwa [Real.sqrt_sq (by norm_num : (0:ℝ) ≤ 1/20000)] at h
  have hhigh : Real.sqrt (450000001/125000000000000000) < 3/20000 := by
    have h := Real.sqrt_lt_sqrt
      (by norm_num : (0:ℝ) ≤ 450000001/125000000000000000)
      (by norm_num : (450000001/125000000000000000 : ℝ) < (3/20000)^2)
    rwa [Real.sqrt_sq (by norm_num : (0:ℝ) ≤ 3/20000)] at h
  have hdiv : Real.sqrt (450000001/125000000000000000) / (1/10000 : ℝ)
      = Real.sqrt (450000001/125000000000000000) * 10000 := by
    field_simp
  apply cppTrunc_eq_of
  · rw [hdiv]; positivity
  · rw [hdiv]; push_cast; nlinarith
  · rw [hdiv]; push_cast; nlinarith

lemma p4ce_members :
    ∀ m ∈ gridTriples p4ce, m = ((0, 0, 0) : ℕ × ℕ × ℕ)
      ∨ m = ((1, 0, 0) : ℕ × ℕ × ℕ) := by
  intro m hm
  rw [mem_gridTriples] at hm
  rcases m with ⟨a, b, c⟩
  have h0 : p4ce.ngrid0 = 2 := rfl
  have h1 : p4ce.ngrid1 = 1 := rfl
  have h2 : p4ce.ngrid2 = 1 := rfl
  rw [h0, h1, h2] at hm
  have ha : a < 2 := hm.1
  have hb : b < 1 := hm.2.1
  have hc : c < 1 := hm.2.2
  have hb0 : b = 0 := by omega
  have hc0 : c = 0 := by omega
  interval_cases a
  · left; rw [hb0, hc0]
  · right; rw [hb0, hc0]

/-- C4 counterexample: the claim's hypotheses hold at this configuration
(strictly increasing edges spanning every grid-mode magnitude), yet the
sum of `nmodes` over the final bins is 1 while the total cell count is 2:
the mode of magnitude `≈ 6·10⁻⁵` lies inside the edge range `(-1, 7·10⁻⁵]`
but its fine-bin representative `10⁻⁴` does not, so the re-binning stage
drops it. -/
theorem C4_counterexample_fine_rebinning_drops_mode :
    (∀ i, i < b4ce.num_bins → b4ce.bin_edges i < b4ce.bin_edges (i + 1))
    ∧ (∀ m ∈ gridTriples p4ce,
        b4ce.bin_edges 0 < kmag p4ce m
          ∧ kmag p4ce m ≤ b4ce.bin_edges b4ce.num_bins)
    ∧ ∑ ibin ∈ Finset.range b4ce.num_bins,
        nmodes_binned p4ce p4ce b4ce ibin = 1
    ∧ nmesh p4ce = 2 ∧ (1 : ℕ) ≠ 2 := by
  have hedge0 : b4ce.bin_edges 0 = -1 := rfl
  have hedge1 : b4ce.bin_edges 1 = 7/100000 := rfl
  have hnb : b4ce.num_bins = 1 := rfl
  refine ⟨?_, ?_, ?_, rfl, by norm_num⟩
  · intro i hi
    rw [hnb] at hi
    have : i = 0 := by omega
    rw [this, hedge0, hedge1]
    norm_num
  · intro m hm
    rw [hnb, hedge0, hedge1]
    rcases p4ce_members m hm with h | h <;> rw [h]
    · rw [p4ce_kmag0]
      constructor
      · have := Real.sqrt_nonneg (1/125000000000000000 : ℝ)
        linarith
      · have h := Real.sqrt_le_sqrt
          (by norm_num : (1/125000000000000000 : ℝ) ≤ (7/100000)^2)
        rwa [Real.sqrt_sq (by norm_num : (0:ℝ) ≤ 7/100000)] at h
    · rw [p4ce_kmag1]
      constructor
      · have := Real.sqrt_nonneg (450000001/125000000000000000 : ℝ)
        linarith
      · have h := Real.sqrt_le_sqrt
          (by norm_num : (450000001/125000000000000000 : ℝ) ≤ (7/100000)^2)
        rwa [Real.sqrt_sq (by norm_num : (0:ℝ) ≤ 7/100000)] at h
  · rw [hnb, Finset.sum_range_one]
    rw [nmodes_binned, binned_count]
    have hsum : ∑ i ∈ Finset.range n_sample,
        (if b4ce.bin_edges 0 < (i : ℝ) * dk_sample
            ∧ (i : ℝ) * dk_sample ≤ b4ce.bin_edges (0 + 1)
          then fine_count p4ce (kmag p4ce) dk_sample i else 0)
        = fine_count p4ce (kmag p4ce) dk_sample 0 := by
      rw [Finset.sum_eq_single 0]
      · rw [if_pos]
        rw [hedge0, hedge1]
        constructor
        · rw [dk_sample]; norm_num
        · rw [dk_sample]; norm_num
      · intro i _ hne
        rw [if_neg]
        rintro ⟨_, hup⟩
        rw [hedge1, dk_sample] at hup
        have h1 : (1 : ℝ) ≤ (i : ℝ) := by
          exact_mod_cast Nat.one_le_iff_ne_zero.mpr hne
        nlinarith
      · intro h0
        exact absurd (Finset.mem_range.mpr (by rw [n_sample]; norm_num)) h0
    rw [hsum, fine_count]
    have hfilter : (gridTriples p4ce).filter
        (fun m => fine_idx dk_sample (kmag p4ce m) = ((0 : ℕ) : ℤ))
        = {((0, 0, 0) : ℕ × ℕ × ℕ)} := by
      ext m
      simp only [Finset.mem_filter, Finset.mem_singleton]
      constructor
      · rintro ⟨hmem, hfi⟩
        rcases p4ce_members m hmem with h | h
        · exact h
        · rw [h] at hfi
          rw [p4ce_fidx1] at hfi
          exact absurd hfi (by norm_num)
      · rintro rfl
        refine ⟨?_, ?_⟩
        · rw [mem_gridTriples]
          exact ⟨(by norm_num : (0:ℕ) < 2), (by norm_num : (0:ℕ) < 1),
            (by norm_num : (0:ℕ) < 1)⟩
        · rw [p4ce_fidx0]
          norm_num
    rw [hfilter]
    rfl

end Triumvirate
